import Mathlib

/-!
# Verification of the testgrid updater's grid-construction pipeline

Shallow embedding of `src/pkg/updater/updater.go` (package `updater`).

Modelling conventions:
* Go slices become `List`s; the run-length-encoded `Row.Results` flat
  `[]int32` (alternating code, count — always written two at a time by
  `appendCell`, hence always of even length) is modelled as a list of
  `(code, count)` pairs.
* `float64` values (`Column.Started`, metric measurements) are modelled as
  `Rat`: no claim under consideration depends on floating-point rounding.
* Go maps (`inflatedColumn.cells`, `cell.metrics`) are modelled as
  association lists; quantifying over all lists covers every map iteration
  order, and key uniqueness is an explicit `Nodup` hypothesis where a claim
  needs it.
* machine integers (`int`, `int32`) are modelled as `Int`/`Nat`; none of the
  claims exercises overflow (column counts are bounded by 50 in the driver).
-/

namespace Updater

/-- Result codes from the `state` proto that the updater manipulates
(`state.Row_NO_RESULT`, `state.Row_PASS`, `state.Row_FAIL`,
`state.Row_FLAKY`, `state.Row_RUNNING`). -/
inductive RowResult where
  | NO_RESULT
  | PASS
  | FAIL
  | FLAKY
  | RUNNING
deriving DecidableEq

/-- `state.Column`: the column-header fields read by the updater
(`Build`, `Started`, `Extra`). -/
structure Column where
  build : String
  started : Rat
  extra : List String
deriving DecidableEq

/-- `timestamp.Timestamp` proto: seconds and nanoseconds. -/
structure Timestamp where
  seconds : Int
  nanos : Int
deriving DecidableEq

/-- `state.AlertInfo` proto, fields populated by `alertInfo`. -/
structure AlertInfo where
  failCount : Int
  failBuildId : String
  failTime : Option Timestamp
  failTestId : String
  failureMessage : String
  passTime : Option Timestamp
  passBuildId : String
deriving DecidableEq

/-- `state.Metric`: sparse metric series. `Indices` is a flat `[]int32` of
alternating `(start, runLength)` pairs; it is kept flat here because
`appendMetric` reads it through raw indexing. -/
structure Metric where
  name : String
  indices : List Int
  values : List Rat
deriving DecidableEq

/-- `state.Row`. `Results` is the run-length-encoded result stream,
modelled as `(code, count)` pairs. -/
structure Row where
  name : String
  id : String
  results : List (RowResult × Nat)
  cellIds : List String
  messages : List String
  icons : List String
  metric : List String
  metrics : List Metric
  alertInfo : Option AlertInfo
deriving DecidableEq

/-- The updater-internal `cell` type, as used by `appendCell`: result code,
cell id, message, icon and a metric-name → measurement map. -/
structure Cell where
  result : RowResult
  cellID : String
  message : String
  icon : String
  metrics : List (String × Rat)
deriving DecidableEq

/-- `state.Grid`: columns plus rows. The Go code keeps a separate
`map[string]*state.Row` index that always holds exactly the rows of
`grid.Rows`; the model looks rows up in `rows` directly. -/
structure Grid where
  columns : List Column
  rows : List Row
deriving DecidableEq

/-- The updater-internal `inflatedColumn`: a column header plus a
test-name → cell map. -/
structure InflatedColumn where
  column : Column
  cells : List (String × Cell)
deriving DecidableEq

/-- The slice of `configpb.TestGroup` that `constructGrid` reads:
`NumFailuresToAlert` and `NumPassesToDisableAlert`. -/
structure TestGroup where
  numFailuresToAlert : Int
  numPassesToDisableAlert : Int
deriving DecidableEq

/-- `var emptyCell = cell{result: state.Row_NO_RESULT}` — all other fields
are Go zero values. -/
def emptyCell : Cell :=
  { result := .NO_RESULT, cellID := "", message := "", icon := "", metrics := [] }

/-- `appendMetric` (updater.go:285-294). Adds `value` at column `idx` to the
sparse series: open a new `(idx, 1)` run unless `idx` is the immediate
successor of the last filled index, in which case the last run length is
incremented. `Indices` is indexed exactly as the Go code does
(`Indices[l-2]`, `Indices[l-1]`). -/
def appendMetric (metric : Metric) (idx : Int) (value : Rat) : Metric :=
  let l := metric.indices.length
  if l = 0 ∨ metric.indices.getD (l - 2) 0 + metric.indices.getD (l - 1) 0 ≠ idx then
    { metric with indices := metric.indices ++ [idx, 1], values := metric.values ++ [value] }
  else
    { metric with
        indices := metric.indices.set (l - 1) (metric.indices.getD (l - 1) 0 + 1),
        values := metric.values ++ [value] }

/-- The run-length update at the top of `appendCell` (updater.go:302-309):
`case n == 0, row.Results[n-2] != latest:` append a fresh `(latest, count)`
pair, `default:` grow the count of the final pair. -/
def appendRLE (results : List (RowResult × Nat)) (latest : RowResult) (count : Nat) :
    List (RowResult × Nat) :=
  match results.getLast? with
  | none => results ++ [(latest, count)]
  | some (code, len) =>
    if code ≠ latest then results ++ [(latest, count)]
    else results.dropLast ++ [(code, len + count)]

/-- The metric-struct lookup/append of updater.go:316-339: find the first
series named `mname` and extend it via `appendMetric`, creating the series
at the end of `Metrics` when absent. -/
def upsertMetric : List Metric → String → Int → Rat → List Metric
  | [], mname, idx, v => [appendMetric { name := mname, indices := [], values := [] } idx v]
  | m :: rest, mname, idx, v =>
    if m.name = mname then appendMetric m idx v :: rest
    else m :: upsertMetric rest mname idx v

/-- One iteration of the `for metricName, measurement := range cell.metrics`
loop of `appendCell` (updater.go:316-340): record `metricName` in the row's
name list when new, and append the sample at index `len(row.CellIds) - 1`
to the (possibly fresh) series of that name. -/
def addMetricSample (r : Row) (nv : String × Rat) : Row :=
  let metricNames := if r.metric.contains nv.1 then r.metric else r.metric ++ [nv.1]
  { r with
      metric := metricNames,
      metrics := upsertMetric r.metrics nv.1 (Int.ofNat (r.cellIds.length - 1)) nv.2 }

/-- One iteration of the `for i := 0; i < count; i++` body of `appendCell`
(updater.go:311-344): append the cell id; unless the result is `NO_RESULT`,
record every metric sample and append the message and icon. -/
def appendCellOnce (row : Row) (c : Cell) : Row :=
  let row := { row with cellIds := row.cellIds ++ [c.cellID] }
  if c.result = .NO_RESULT then row
  else
    let row := c.metrics.foldl addMetricSample row
    { row with messages := row.messages ++ [c.message], icons := row.icons ++ [c.icon] }

/-- `appendCell` (updater.go:301-345): run-length-encode `count` copies of
the result, then run the per-copy body `count` times. -/
def appendCell (row : Row) (c : Cell) (count : Nat) : Row :=
  let row := { row with results := appendRLE row.results c.result count }
  (List.range count).foldl (fun r _ => appendCellOnce r c) row

/-- `&state.Row{Name: name, Id: name}` (updater.go:389-392): a fresh row
with Go zero values everywhere else. -/
def blankRow (name : String) : Row :=
  { name := name, id := name, results := [], cellIds := [], messages := [],
    icons := [], metric := [], metrics := [], alertInfo := none }

/-- The fresh row created at updater.go:389-397, including the back-fill of
`n - 1` empty cells when the grid already has `n > 1` columns, followed by
the `appendCell(row, cell, 1)` of line 399. `n` is `len(grid.Columns)`
after the new column was appended. -/
def newRowFor (n : Nat) (name : String) (c : Cell) : Row :=
  let row := blankRow name
  let row := if n > 1 then appendCell row emptyCell (n - 1) else row
  appendCell row c 1

/-- One iteration of the `for name, cell := range inflated.cells` loop of
`appendColumn` (updater.go:384-400): extend the row named `nc.1` when it
exists, otherwise create (and back-fill) it and append it to the grid. -/
def addCellStep (n : Nat) (g : Grid) (nc : String × Cell) : Grid :=
  if g.rows.any (fun r => r.name = nc.1) then
    { g with rows := g.rows.map (fun r => if r.name = nc.1 then appendCell r nc.2 1 else r) }
  else
    { g with rows := g.rows ++ [newRowFor n nc.1 nc.2] }

/-- `appendColumn` (updater.go:376-405): append the column header, fold the
cells in, then give one empty cell to every pre-existing row that had no
cell in this column (the `missing` map). A row is `missing` exactly when
its name is not among the column's cell names, so the final pass is
expressed as a guarded map over the rows. -/
def appendColumn (grid : Grid) (ic : InflatedColumn) : Grid :=
  let grid := { grid with columns := grid.columns ++ [ic.column] }
  let n := grid.columns.length
  let grid := ic.cells.foldl (addCellStep n) grid
  { grid with
      rows := grid.rows.map (fun r =>
        if ic.cells.any (fun nc => nc.1 = r.name) then r else appendCell r emptyCell 1) }

/-- Modelled from the spec: `result.Coalesce(res, result.IgnoreRunning)`
(package `internal/result`, not under `src/`) maps `RUNNING` to
`NO_RESULT` and is otherwise the identity. -/
def coalesce : RowResult → RowResult
  | .RUNNING => .NO_RESULT
  | r => r

/-- Modelled from the spec: `result.Iter` (package `internal/result`, not
under `src/`) run-length decodes `Row.Results`, yielding each code
`count` times, newest first. -/
def decodeResults (results : List (RowResult × Nat)) : List RowResult :=
  (results.map (fun p => List.replicate p.2 p.1)).flatten

/-- Pair each column with the corresponding decoded result. After the
decoder's channel is exhausted, a Go receive yields the zero value
`Row_NO_RESULT`, so short result streams are padded with `NO_RESULT`. -/
def zipPad (cols : List Column) (results : List RowResult) : List (Column × RowResult) :=
  match cols, results with
  | [], _ => []
  | c :: cs, [] => (c, RowResult.NO_RESULT) :: zipPad cs []
  | c :: cs, r :: rs => (c, r) :: zipPad cs rs

/-- The mutable locals of the `alertRow` scan (updater.go:421-428). -/
structure AlertState where
  failures : Int
  totalFailures : Int
  passes : Int
  compressedIdx : Nat
  lastFail : Option Column
  latestPass : Option Column
  failIdx : Nat
deriving DecidableEq

/-- Initial values of the `alertRow` locals (Go zero values). -/
def initAlertState : AlertState :=
  { failures := 0, totalFailures := 0, passes := 0, compressedIdx := 0,
    lastFail := none, latestPass := none, failIdx := 0 }

/-- Outcome of one iteration of the `alertRow` column loop: `ret` is the
`return nil`, `brk` the `break`, `cont` the fall-through to the next
column. -/
inductive StepOut where
  | ret
  | brk (s : AlertState)
  | cont (s : AlertState)
deriving DecidableEq

/-- One iteration of the `for _, col := range cols` loop of `alertRow`
(updater.go:431-469), for raw result `raw` received from the decoder. -/
def alertStep (failuresToOpen passesToClose : Int) (s : AlertState) (col : Column)
    (raw : RowResult) : StepOut :=
  match coalesce raw with
  | .NO_RESULT =>
    if raw = .RUNNING then .cont { s with compressedIdx := s.compressedIdx + 1 }
    else .cont s
  | .RUNNING => .cont s
  | .PASS =>
    let s := { s with passes := s.passes + 1 }
    if s.failures ≥ failuresToOpen then .brk { s with latestPass := some col }
    else if s.passes ≥ passesToClose then .ret
    else .cont { s with failures := 0, compressedIdx := s.compressedIdx + 1 }
  | .FAIL =>
    let s := { s with passes := 0, failures := s.failures + 1,
                      totalFailures := s.totalFailures + 1 }
    let s := if s.failures = (1 : Int) then { s with failIdx := s.compressedIdx } else s
    .cont { s with lastFail := some col, compressedIdx := s.compressedIdx + 1 }
  | .FLAKY =>
    let s := { s with passes := 0 }
    if s.failures ≥ failuresToOpen then .brk s
    else .cont { s with failures := 0, compressedIdx := s.compressedIdx + 1 }

/-- The full column loop of `alertRow`: `none` models the `return nil`
taken inside the loop, `some s` the state at the `break` or at normal
loop exit. -/
def alertScan (failuresToOpen passesToClose : Int) :
    List (Column × RowResult) → AlertState → Option AlertState
  | [], s => some s
  | (col, raw) :: rest, s =>
    match alertStep failuresToOpen passesToClose s col raw with
    | .ret => none
    | .brk s' => some s'
    | .cont s' => alertScan failuresToOpen passesToClose rest s'

/-- `buildID` (updater.go:492-500): the first extra, or else the `Build`
field; the empty string for a nil column. -/
def buildID : Option Column → String
  | none => ""
  | some col => if 0 < col.extra.length then col.extra.getD 0 "" else col.build

/-- `const billion = 1e9` (updater.go:502). -/
def billion : Rat := 1000000000

/-- `stamp` (updater.go:505-516): split fractional epoch seconds into a
timestamp proto; nil column yields nil. The Go `int32(remain*billion)`
truncation coincides with the floor because `remain ∈ [0, 1)`. -/
def stamp : Option Column → Option Timestamp
  | none => none
  | some col =>
    let seconds := col.started
    let floor : Int := ⌊seconds⌋
    let remain : Rat := seconds - (floor : Rat)
    some { seconds := floor, nanos := ⌊remain * billion⌋ }

/-- `alertInfo` (updater.go:479-489). -/
def alertInfo (failures : Int) (msg cellId : String) (fail pass : Option Column) : AlertInfo :=
  { failCount := failures, failBuildId := buildID fail, failTime := stamp fail,
    failTestId := cellId, failureMessage := msg, passTime := stamp pass,
    passBuildId := buildID pass }

/-- `alertRow` (updater.go:415-476). The `row.Messages[failIdx]` /
`row.CellIds[failIdx]` indexing is modelled with `getD` defaults; in every
grid the updater builds, `failIdx` is in range whenever an alert fires. -/
def alertRow (cols : List Column) (row : Row) (failuresToOpen passesToClose : Int) :
    Option AlertInfo :=
  if failuresToOpen = 0 then none
  else
    let results := decodeResults row.results
    match alertScan failuresToOpen passesToClose (zipPad cols results) initAlertState with
    | none => none
    | some s =>
      if s.failures < failuresToOpen then none
      else
        some (alertInfo s.totalFailures (row.messages.getD s.failIdx "")
          (row.cellIds.getD s.failIdx "") s.lastFail s.latestPass)

/-- `alertRows` (updater.go:408-412): recompute (and overwrite) every
row's `AlertInfo`. -/
def alertRows (failsOpen passesClose : Int) (g : Grid) : Grid :=
  { g with rows := g.rows.map (fun r =>
      { r with alertInfo := alertRow g.columns r failsOpen passesClose }) }

/-- The numeric value of a run of decimal digit characters. -/
def digitsVal (ds : List Char) : Nat :=
  ds.foldl (fun n c => 10 * n + (c.toNat - 48)) 0

/-- Sort key of one token of a string under natural order: a digit run
`ds` becomes `(0, value, number of leading zeros)` — the pair
(value, leading zeros) determines the run uniquely — and any other
character `c` becomes `(1, c.toNat, 0)`. -/
def charKey (c : Char) : Nat × Nat × Nat := (1, c.toNat, 0)

theorem dropWhile_length_le (p : α → Bool) (l : List α) :
    (l.dropWhile p).length ≤ l.length := by
  induction l with
  | nil => simp [List.dropWhile]
  | cons a l ih =>
    simp only [List.dropWhile]
    cases p a
    · simp
    · simpa using Nat.le_succ_of_le ih

/-- Tokenize a string into sort keys: maximal digit runs compare as
integers, all other characters bytewise. -/
def key : List Char → List (Nat × Nat × Nat)
  | [] => []
  | c :: cs =>
    if c.isDigit then
      let ds := c :: cs.takeWhile Char.isDigit
      (0, digitsVal ds, (ds.takeWhile (· = '0')).length) :: key (cs.dropWhile Char.isDigit)
    else
      charKey c :: key cs
  termination_by l => l.length
  decreasing_by
    · exact Nat.lt_succ_of_le (dropWhile_length_le _ _)
    · simp

/-- Strict comparison of two token keys (lexicographic on the triple). -/
def keyLt (a b : Nat × Nat × Nat) : Bool :=
  decide (a.1 < b.1) ||
    (decide (a.1 = b.1) &&
      (decide (a.2.1 < b.2.1) || (decide (a.2.1 = b.2.1) && decide (a.2.2 < b.2.2))))

/-- Lexicographic strict comparison of token-key lists. -/
def keysLt : List (Nat × Nat × Nat) → List (Nat × Nat × Nat) → Bool
  | [], [] => false
  | [], _ :: _ => true
  | _ :: _, [] => false
  | a :: as, b :: bs => keyLt a b || (decide (a = b) && keysLt as bs)

/-- Modelled from the spec: `sortorder.NaturalLess` (external dependency
`vbom.ml/util/sortorder`, not under `src/`): a string comparator that
treats embedded numeric runs as integers, so `test-10` sorts after
`test-2`. -/
def naturalLess (a b : String) : Bool :=
  keysLt (key a.data) (key b.data)

/-- Stable insertion of `a` into the already-sorted `l`: `a` is placed
before the first element that must sort after it, so elements that
compare equal keep their original relative order. -/
def insertSorted (lt : α → α → Bool) (a : α) : List α → List α
  | [] => [a]
  | b :: l => if lt a b then a :: b :: l else b :: insertSorted lt a l

/-- Model of Go's `sort.SliceStable`: a stable sort by the comparator
`lt`. Any two stable sorts agree when `lt` is a strict weak order, which
`naturalLess` is, so insertion sort is a faithful model. -/
def sortSliceStable (lt : α → α → Bool) (l : List α) : List α :=
  l.foldl (fun acc a => insertSorted lt a acc) []

/-- `constructGrid` (updater.go:235-262): compute the alert thresholds,
fold every inflated column into the grid — re-evaluating every row's
alert after each column — then sort the rows and each row's metric
names and metric series by natural order. -/
def constructGrid (group : TestGroup) (cols : List InflatedColumn) : Grid :=
  let failsOpen := group.numFailuresToAlert
  let passesClose0 := group.numPassesToDisableAlert
  let passesClose := if failsOpen > 0 ∧ passesClose0 = 0 then 1 else passesClose0
  let grid := cols.foldl
    (fun g col => alertRows failsOpen passesClose (appendColumn g col))
    { columns := [], rows := [] }
  let grid := { grid with
    rows := sortSliceStable (fun a b => naturalLess a.name b.name) grid.rows }
  { grid with
      rows := grid.rows.map (fun row =>
        { row with
            metric := sortSliceStable naturalLess row.metric,
            metrics := sortSliceStable (fun a b => naturalLess a.name b.name) row.metrics }) }

/-- The variant of `constructGrid` the specification proposes: append all
columns first and evaluate alerts exactly once after the fold, leaving
everything else unchanged. -/
def constructGridAlertsAtEnd (group : TestGroup) (cols : List InflatedColumn) : Grid :=
  let failsOpen := group.numFailuresToAlert
  let passesClose0 := group.numPassesToDisableAlert
  let passesClose := if failsOpen > 0 ∧ passesClose0 = 0 then 1 else passesClose0
  let grid := cols.foldl (fun g col => appendColumn g col) { columns := [], rows := [] }
  let grid := alertRows failsOpen passesClose grid
  let grid := { grid with
    rows := sortSliceStable (fun a b => naturalLess a.name b.name) grid.rows }
  { grid with
      rows := grid.rows.map (fun row =>
        { row with
            metric := sortSliceStable naturalLess row.metric,
            metrics := sortSliceStable (fun a b => naturalLess a.name b.name) row.metrics }) }

/-- Variant of `alertStep` in which a `RUNNING` verdict is ignored
outright — it only consumes a compressed index slot — and the decision
branches dispatch on the raw result directly, never seeing `RUNNING`. -/
def alertStepIgnoring (failuresToOpen passesToClose : Int) (s : AlertState) (col : Column)
    (raw : RowResult) : StepOut :=
  match raw with
  | .RUNNING => .cont { s with compressedIdx := s.compressedIdx + 1 }
  | .NO_RESULT => .cont s
  | .PASS =>
    let s := { s with passes := s.passes + 1 }
    if s.failures ≥ failuresToOpen then .brk { s with latestPass := some col }
    else if s.passes ≥ passesToClose then .ret
    else .cont { s with failures := 0, compressedIdx := s.compressedIdx + 1 }
  | .FAIL =>
    let s := { s with passes := 0, failures := s.failures + 1,
                      totalFailures := s.totalFailures + 1 }
    let s := if s.failures = (1 : Int) then { s with failIdx := s.compressedIdx } else s
    .cont { s with lastFail := some col, compressedIdx := s.compressedIdx + 1 }
  | .FLAKY =>
    let s := { s with passes := 0 }
    if s.failures ≥ failuresToOpen then .brk s
    else .cont { s with failures := 0, compressedIdx := s.compressedIdx + 1 }

/-- The column loop of `alertRow` built from `alertStepIgnoring`. -/
def alertScanIgnoring (failuresToOpen passesToClose : Int) :
    List (Column × RowResult) → AlertState → Option AlertState
  | [], s => some s
  | (col, raw) :: rest, s =>
    match alertStepIgnoring failuresToOpen passesToClose s col raw with
    | .ret => none
    | .brk s' => some s'
    | .cont s' => alertScanIgnoring failuresToOpen passesToClose rest s'

/-- `alertRow` with every `RUNNING` cell's verdict ignored (treated purely
as a compressed-index slot). -/
def alertRowIgnoringRunning (cols : List Column) (row : Row)
    (failuresToOpen passesToClose : Int) : Option AlertInfo :=
  if failuresToOpen = 0 then none
  else
    let results := decodeResults row.results
    match alertScanIgnoring failuresToOpen passesToClose (zipPad cols results) initAlertState with
    | none => none
    | some s =>
      if s.failures < failuresToOpen then none
      else
        some (alertInfo s.totalFailures (row.messages.getD s.failIdx "")
          (row.cellIds.getD s.failIdx "") s.lastFail s.latestPass)

/-- Length of the run-length decoded result stream of a row. -/
def decodedLength (results : List (RowResult × Nat)) : Nat :=
  (results.map Prod.snd).sum

/-- Number of decoded cells whose result is not `NO_RESULT` — the number
of `messages`/`icons` entries `appendCell` produces. -/
def nonNilCount (results : List (RowResult × Nat)) : Nat :=
  (results.map (fun p => if p.1 = RowResult.NO_RESULT then 0 else p.2)).sum

/-- Sum of the run lengths of a sparse metric's `indices` stream
(the entries at odd positions of the flat pair encoding). -/
def sumRunLengths : List Int → Int
  | _ :: len :: rest => len + sumRunLengths rest
  | _ => 0

/-! ## Run-length-encoding lemmas -/

theorem getLast?_decomp {l : List (RowResult × Nat)} {p : RowResult × Nat}
    (h : l.getLast? = some p) : l = l.dropLast ++ [p] := by
  induction l with
  | nil => simp at h
  | cons a l ih =>
    cases l with
    | nil => simp_all
    | cons b l =>
      rw [List.getLast?_cons_cons] at h
      have := ih h
      rw [List.dropLast_cons₂, List.cons_append, ← this]

theorem decode_append (xs ys : List (RowResult × Nat)) :
    decodeResults (xs ++ ys) = decodeResults xs ++ decodeResults ys := by
  simp [decodeResults]

theorem decode_single (code : RowResult) (k : Nat) :
    decodeResults [(code, k)] = List.replicate k code := by
  simp [decodeResults]

theorem decode_appendRLE (rs : List (RowResult × Nat)) (latest : RowResult) (count : Nat) :
    decodeResults (appendRLE rs latest count) =
      decodeResults rs ++ List.replicate count latest := by
  unfold appendRLE
  cases h : rs.getLast? with
  | none => rw [decode_append, decode_single]
  | some p =>
    obtain ⟨code, len⟩ := p
    dsimp only
    by_cases hc : code = latest
    · subst hc
      rw [if_neg (by simp)]
      conv_rhs => rw [getLast?_decomp h]
      rw [decode_append, decode_append, decode_single, decode_single,
        List.replicate_add, List.append_assoc]
    · rw [if_pos (by simpa using hc), decode_append, decode_single]

theorem decodedLength_eq (rs : List (RowResult × Nat)) :
    decodedLength rs = (decodeResults rs).length := by
  induction rs with
  | nil => simp [decodedLength, decodeResults]
  | cons p rs ih => simp [decodedLength, decodeResults] at ih ⊢; omega

theorem nonNilCount_eq (rs : List (RowResult × Nat)) :
    nonNilCount rs = (decodeResults rs).countP (fun c => decide (c ≠ RowResult.NO_RESULT)) := by
  induction rs with
  | nil => simp [nonNilCount, decodeResults]
  | cons p rs ih =>
    obtain ⟨code, cnt⟩ := p
    simp only [nonNilCount, decodeResults, List.map_cons, List.flatten_cons,
      List.sum_cons, List.countP_append] at ih ⊢
    by_cases h : code = RowResult.NO_RESULT <;>
      simp [h, List.countP_replicate, ih, nonNilCount, decodeResults]

theorem decodedLength_appendRLE (rs : List (RowResult × Nat)) (latest : RowResult) (count : Nat) :
    decodedLength (appendRLE rs latest count) = decodedLength rs + count := by
  rw [decodedLength_eq, decodedLength_eq, decode_appendRLE]
  simp

theorem nonNilCount_appendRLE (rs : List (RowResult × Nat)) (latest : RowResult) (count : Nat) :
    nonNilCount (appendRLE rs latest count) =
      nonNilCount rs + (if latest = RowResult.NO_RESULT then 0 else count) := by
  rw [nonNilCount_eq, nonNilCount_eq, decode_appendRLE]
  by_cases h : latest = RowResult.NO_RESULT <;>
    simp [h, List.countP_append, List.countP_replicate]

/-! ## `appendCell` effect lemmas -/

theorem addMetricSample_fields (r : Row) (nv : String × Rat) :
    (addMetricSample r nv).name = r.name ∧
    (addMetricSample r nv).id = r.id ∧
    (addMetricSample r nv).results = r.results ∧
    (addMetricSample r nv).cellIds = r.cellIds ∧
    (addMetricSample r nv).messages = r.messages ∧
    (addMetricSample r nv).icons = r.icons ∧
    (addMetricSample r nv).alertInfo = r.alertInfo := by
  simp [addMetricSample]

theorem foldl_addMetricSample_fields (ms : List (String × Rat)) (r : Row) :
    (ms.foldl addMetricSample r).name = r.name ∧
    (ms.foldl addMetricSample r).id = r.id ∧
    (ms.foldl addMetricSample r).results = r.results ∧
    (ms.foldl addMetricSample r).cellIds = r.cellIds ∧
    (ms.foldl addMetricSample r).messages = r.messages ∧
    (ms.foldl addMetricSample r).icons = r.icons ∧
    (ms.foldl addMetricSample r).alertInfo = r.alertInfo := by
  induction ms generalizing r with
  | nil => simp
  | cons nv ms ih =>
    simp only [List.foldl_cons]
    exact (ih (addMetricSample r nv)).imp (by simp [addMetricSample])
      (fun h => h.imp (by simp [addMetricSample]) (fun h => h.imp (by simp [addMetricSample])
        (fun h => h.imp (by simp [addMetricSample]) (fun h => h.imp (by simp [addMetricSample])
          (fun h => h.imp (by simp [addMetricSample]) (by simp [addMetricSample]))))))

theorem appendCellOnce_fields (r : Row) (c : Cell) :
    (appendCellOnce r c).name = r.name ∧
    (appendCellOnce r c).id = r.id ∧
    (appendCellOnce r c).results = r.results ∧
    (appendCellOnce r c).cellIds = r.cellIds ++ [c.cellID] ∧
    (appendCellOnce r c).messages =
      (r.messages ++ if c.result = RowResult.NO_RESULT then [] else [c.message]) ∧
    (appendCellOnce r c).icons =
      (r.icons ++ if c.result = RowResult.NO_RESULT then [] else [c.icon]) ∧
    (appendCellOnce r c).alertInfo = r.alertInfo := by
  unfold appendCellOnce
  by_cases h : c.result = RowResult.NO_RESULT
  · simp [h]
  · have hf := foldl_addMetricSample_fields c.metrics
      { r with cellIds := r.cellIds ++ [c.cellID] }
    simp only [h, if_neg h, if_false] at *
    simp_all

theorem foldl_appendCellOnce_fields (c : Cell) (k : Nat) (r0 : Row) :
    ((List.range k).foldl (fun r _ => appendCellOnce r c) r0).name = r0.name ∧
    ((List.range k).foldl (fun r _ => appendCellOnce r c) r0).id = r0.id ∧
    ((List.range k).foldl (fun r _ => appendCellOnce r c) r0).results = r0.results ∧
    ((List.range k).foldl (fun r _ => appendCellOnce r c) r0).cellIds =
      r0.cellIds ++ List.replicate k c.cellID ∧
    ((List.range k).foldl (fun r _ => appendCellOnce r c) r0).messages =
      (r0.messages ++ if c.result = RowResult.NO_RESULT then [] else List.replicate k c.message) ∧
    ((List.range k).foldl (fun r _ => appendCellOnce r c) r0).icons =
      (r0.icons ++ if c.result = RowResult.NO_RESULT then [] else List.replicate k c.icon) ∧
    ((List.range k).foldl (fun r _ => appendCellOnce r c) r0).alertInfo = r0.alertInfo := by
  induction k with
  | zero => simp
  | succ k ih =>
    rw [List.range_succ, List.foldl_append, List.foldl_cons, List.foldl_nil]
    obtain ⟨p1, p2, p3, p4, p5, p6, p7⟩ := ih
    obtain ⟨s1, s2, s3, s4, s5, s6, s7⟩ :=
      appendCellOnce_fields ((List.range k).foldl (fun r _ => appendCellOnce r c) r0) c
    refine ⟨by rw [s1, p1], by rw [s2, p2], by rw [s3, p3], ?_, ?_, ?_, by rw [s7, p7]⟩
    · rw [s4, p4, List.append_assoc, ← List.replicate_succ']
    · rw [s5, p5]
      by_cases h : c.result = RowResult.NO_RESULT
      · simp [h]
      · simp only [if_neg h]
        rw [List.append_assoc, ← List.replicate_succ']
    · rw [s6, p6]
      by_cases h : c.result = RowResult.NO_RESULT
      · simp [h]
      · simp only [if_neg h]
        rw [List.append_assoc, ← List.replicate_succ']

theorem appendMetric_name (m : Metric) (idx : Int) (v : Rat) :
    (appendMetric m idx v).name = m.name := by
  simp only [appendMetric]
  split <;> rfl

theorem upsertMetric_names (ms : List Metric) (mname : String) (idx : Int) (v : Rat) :
    (upsertMetric ms mname idx v).map Metric.name =
      if (ms.map Metric.name).contains mname then ms.map Metric.name
      else ms.map Metric.name ++ [mname] := by
  induction ms with
  | nil => simp [upsertMetric, appendMetric_name]
  | cons m rest ih =>
    by_cases h : m.name = mname
    · simp [upsertMetric, h, appendMetric_name]
    · have hb : (mname == m.name) = false := by
        simpa using fun hh : mname = m.name => h hh.symm
      simp only [upsertMetric, if_neg h, List.map_cons, List.contains_cons, ih, hb,
        Bool.false_or]
      split <;> simp

theorem addMetricSample_sync (r : Row) (nv : String × Rat)
    (h : r.metric = r.metrics.map Metric.name) :
    (addMetricSample r nv).metric = (addMetricSample r nv).metrics.map Metric.name := by
  simp only [addMetricSample, upsertMetric_names, ← h]

theorem foldl_addMetricSample_sync (ms : List (String × Rat)) (r : Row)
    (h : r.metric = r.metrics.map Metric.name) :
    (ms.foldl addMetricSample r).metric =
      (ms.foldl addMetricSample r).metrics.map Metric.name := by
  induction ms generalizing r with
  | nil => simpa
  | cons nv ms ih => exact ih _ (addMetricSample_sync r nv h)

theorem appendCellOnce_sync (r : Row) (c : Cell)
    (h : r.metric = r.metrics.map Metric.name) :
    (appendCellOnce r c).metric = (appendCellOnce r c).metrics.map Metric.name := by
  unfold appendCellOnce
  by_cases hr : c.result = RowResult.NO_RESULT
  · simpa [hr]
  · simp only [if_neg hr]
    exact foldl_addMetricSample_sync c.metrics _ (by simpa)

theorem appendCell_sync (r : Row) (c : Cell) (count : Nat)
    (h : r.metric = r.metrics.map Metric.name) :
    (appendCell r c count).metric = (appendCell r c count).metrics.map Metric.name := by
  unfold appendCell
  have : ∀ (k : Nat) (r0 : Row), r0.metric = r0.metrics.map Metric.name →
      ((List.range k).foldl (fun r _ => appendCellOnce r c) r0).metric =
        ((List.range k).foldl (fun r _ => appendCellOnce r c) r0).metrics.map Metric.name := by
    intro k
    induction k with
    | zero => simp
    | succ k ih =>
      intro r0 h0
      rw [List.range_succ, List.foldl_append, List.foldl_cons, List.foldl_nil]
      exact appendCellOnce_sync _ _ (ih r0 h0)
  exact this count _ (by simpa)

theorem appendCell_fields (r : Row) (c : Cell) (count : Nat) :
    (appendCell r c count).name = r.name ∧
    (appendCell r c count).id = r.id ∧
    (appendCell r c count).results = appendRLE r.results c.result count ∧
    (appendCell r c count).cellIds = r.cellIds ++ List.replicate count c.cellID ∧
    (appendCell r c count).messages =
      (r.messages ++ if c.result = RowResult.NO_RESULT then [] else List.replicate count c.message) ∧
    (appendCell r c count).icons =
      (r.icons ++ if c.result = RowResult.NO_RESULT then [] else List.replicate count c.icon) ∧
    (appendCell r c count).alertInfo = r.alertInfo := by
  unfold appendCell
  obtain ⟨p1, p2, p3, p4, p5, p6, p7⟩ :=
    foldl_appendCellOnce_fields c count { r with results := appendRLE r.results c.result count }
  exact ⟨by simpa using p1, by simpa using p2, by simpa using p3, by simpa using p4,
    by simpa using p5, by simpa using p6, by simpa using p7⟩

theorem appendCell_name (r : Row) (c : Cell) (count : Nat) :
    (appendCell r c count).name = r.name := (appendCell_fields r c count).1

theorem appendCell_results (r : Row) (c : Cell) (count : Nat) :
    (appendCell r c count).results = appendRLE r.results c.result count :=
  (appendCell_fields r c count).2.2.1

theorem appendCell_alertInfo (r : Row) (c : Cell) (count : Nat) :
    (appendCell r c count).alertInfo = r.alertInfo :=
  (appendCell_fields r c count).2.2.2.2.2.2

/-! ## Characterizing `appendColumn` -/

/-- The net per-row effect of the cells loop of `appendColumn` on a
pre-existing row: append the row's cell when the column has one. -/
def updCell (cells : List (String × Cell)) (r : Row) : Row :=
  match cells.find? (fun nc => nc.1 == r.name) with
  | some nc => appendCell r nc.2 1
  | none => r

theorem updCell_name (cells : List (String × Cell)) (r : Row) :
    (updCell cells r).name = r.name := by
  unfold updCell
  cases h : cells.find? (fun nc => nc.1 == r.name) with
  | none => rfl
  | some nc => exact appendCell_name _ _ _

theorem newRowFor_name (n : Nat) (name : String) (c : Cell) :
    (newRowFor n name c).name = name := by
  unfold newRowFor
  rw [appendCell_name]
  split <;> simp [appendCell_name, blankRow]

theorem any_name_map (rows : List Row) (f : Row → Row)
    (hf : ∀ r ∈ rows, (f r).name = r.name) (m : String) :
    (rows.map f).any (fun r => r.name = m) = rows.any (fun r => r.name = m) := by
  induction rows with
  | nil => rfl
  | cons r rows ih =>
    simp only [List.map_cons, List.any_cons]
    rw [hf r (by simp), ih (fun x hx => hf x (by simp [hx]))]

theorem find?_none_of_not_mem {cells : List (String × Cell)} {m : String}
    (h : m ∉ cells.map Prod.fst) : cells.find? (fun nc => nc.1 == m) = none := by
  rw [List.find?_eq_none]
  intro nc hnc
  simp only [beq_iff_eq]
  intro he
  exact h (by simpa [← he] using List.mem_map_of_mem Prod.fst hnc)

theorem foldl_addCellStep_columns (n : Nat) (cells : List (String × Cell)) (g : Grid) :
    (cells.foldl (addCellStep n) g).columns = g.columns := by
  induction cells generalizing g with
  | nil => rfl
  | cons nc rest ih =>
    rw [List.foldl_cons, ih]
    unfold addCellStep
    split <;> rfl

theorem updCell_cons_hit (nc : String × Cell) (rest : List (String × Cell)) (r : Row)
    (hr : r.name = nc.1) : updCell (nc :: rest) r = appendCell r nc.2 1 := by
  unfold updCell
  rw [List.find?_cons_of_pos _ (by simpa using hr.symm)]

theorem updCell_cons_miss (nc : String × Cell) (rest : List (String × Cell)) (r : Row)
    (hr : ¬r.name = nc.1) : updCell (nc :: rest) r = updCell rest r := by
  unfold updCell
  rw [List.find?_cons_of_neg _ (by simpa using fun hh : nc.1 = r.name => hr hh.symm)]

theorem updCell_not_mem (cells : List (String × Cell)) (r : Row)
    (hr : r.name ∉ cells.map Prod.fst) : updCell cells r = r := by
  unfold updCell
  rw [find?_none_of_not_mem hr]

theorem foldl_addCellStep_rows (n : Nat) (cells : List (String × Cell)) (g : Grid)
    (hnd : (cells.map Prod.fst).Nodup) :
    (cells.foldl (addCellStep n) g).rows =
      g.rows.map (updCell cells) ++
      (cells.filter (fun nc => !g.rows.any (fun r => r.name = nc.1))).map
        (fun nc => newRowFor n nc.1 nc.2) := by
  induction cells generalizing g with
  | nil =>
    simp only [List.foldl_nil, List.filter_nil, List.map_nil, List.append_nil]
    have : ∀ r ∈ g.rows, updCell [] r = r := fun r _ => updCell_not_mem [] r (by simp)
    rw [List.map_congr_left this]
    simp
  | cons nc rest ih =>
    rw [List.map_cons, List.nodup_cons] at hnd
    obtain ⟨hhead, htail⟩ := hnd
    rw [List.foldl_cons, ih (addCellStep n g nc) htail]
    by_cases h : g.rows.any (fun r => r.name = nc.1) = true
    · have hstep : addCellStep n g nc =
          { g with rows := g.rows.map (fun r =>
              if r.name = nc.1 then appendCell r nc.2 1 else r) } := by
        unfold addCellStep
        rw [if_pos h]
      rw [hstep]
      have hnames : ∀ r ∈ g.rows,
          ((fun r => if r.name = nc.1 then appendCell r nc.2 1 else r) r).name = r.name := by
        intro r _
        by_cases hr : r.name = nc.1 <;> simp [hr, appendCell_name]
      have hmap : (g.rows.map (fun r =>
            if r.name = nc.1 then appendCell r nc.2 1 else r)).map (updCell rest) =
          g.rows.map (updCell (nc :: rest)) := by
        rw [List.map_map]
        refine List.map_congr_left ?_
        intro r _
        show updCell rest (if r.name = nc.1 then appendCell r nc.2 1 else r) =
          updCell (nc :: rest) r
        by_cases hr : r.name = nc.1
        · rw [if_pos hr, updCell_cons_hit nc rest r hr]
          exact updCell_not_mem rest _ (by rw [appendCell_name, hr]; exact hhead)
        · rw [if_neg hr, updCell_cons_miss nc rest r hr]
      have hfilter : rest.filter (fun mc =>
            !(g.rows.map (fun r => if r.name = nc.1 then appendCell r nc.2 1 else r)).any
              (fun r => r.name = mc.1)) =
          rest.filter (fun mc => !g.rows.any (fun r => r.name = mc.1)) := by
        refine List.filter_congr ?_
        intro mc _
        rw [any_name_map g.rows _ hnames]
      have hconsfilter : (nc :: rest).filter (fun mc =>
            !g.rows.any (fun r => r.name = mc.1)) =
          rest.filter (fun mc => !g.rows.any (fun r => r.name = mc.1)) := by
        rw [List.filter_cons_of_neg (by simpa using h)]
      rw [hmap, hfilter, hconsfilter]
    · have hstep : addCellStep n g nc =
          { g with rows := g.rows ++ [newRowFor n nc.1 nc.2] } := by
        unfold addCellStep
        rw [if_neg h]
      have hnone : ∀ r ∈ g.rows, ¬r.name = nc.1 := by
        intro r hr hcontra
        exact h (List.any_eq_true.mpr ⟨r, hr, by simpa using hcontra⟩)
      rw [hstep]
      have hnew : updCell rest (newRowFor n nc.1 nc.2) = newRowFor n nc.1 nc.2 :=
        updCell_not_mem rest _ (by rw [newRowFor_name]; exact hhead)
      have hmap : (g.rows ++ [newRowFor n nc.1 nc.2]).map (updCell rest) =
          g.rows.map (updCell (nc :: rest)) ++ [newRowFor n nc.1 nc.2] := by
        rw [List.map_append]
        congr 1
        · refine List.map_congr_left ?_
          intro r hr
          exact (updCell_cons_miss nc rest r (hnone r hr)).symm
        · simp [hnew]
      have hfilter : rest.filter (fun mc =>
            !(g.rows ++ [newRowFor n nc.1 nc.2]).any (fun r => r.name = mc.1)) =
          rest.filter (fun mc => !g.rows.any (fun r => r.name = mc.1)) := by
        refine List.filter_congr ?_
        intro mc hmc
        have : ((newRowFor n nc.1 nc.2).name = mc.1) = False := by
          rw [newRowFor_name]
          simp only [eq_iff_iff, iff_false]
          intro hcontra
          exact hhead (hcontra ▸ List.mem_map_of_mem Prod.fst hmc)
        simp [List.any_append, this]
      have hconsfilter : (nc :: rest).filter (fun mc =>
            !g.rows.any (fun r => r.name = mc.1)) =
          nc :: rest.filter (fun mc => !g.rows.any (fun r => r.name = mc.1)) := by
        rw [List.filter_cons_of_pos (by simpa using h)]
      rw [hmap, hfilter, hconsfilter, List.map_cons, List.append_assoc,
        List.singleton_append]


theorem appendColumn_columns (g : Grid) (ic : InflatedColumn) :
    (appendColumn g ic).columns = g.columns ++ [ic.column] := by
  unfold appendColumn
  rw [foldl_addCellStep_columns]

theorem appendColumn_rows (g : Grid) (ic : InflatedColumn)
    (hnd : (ic.cells.map Prod.fst).Nodup) :
    (appendColumn g ic).rows =
      (g.rows.map (updCell ic.cells) ++
        (ic.cells.filter (fun nc => !g.rows.any (fun r => r.name = nc.1))).map
          (fun nc => newRowFor (g.columns.length + 1) nc.1 nc.2)).map
        (fun r => if ic.cells.any (fun nc => nc.1 = r.name) then r
                  else appendCell r emptyCell 1) := by
  unfold appendColumn
  dsimp only
  rw [foldl_addCellStep_rows _ _ _ hnd]
  simp

/-! ## Length invariants of grid rows -/

/-- The per-row length invariants the updater maintains: the decoded
result stream and the cell-id list cover all `n` columns, while messages
and icons cover exactly the cells whose result is not `NO_RESULT`. -/
def RowLenInv (n : Nat) (r : Row) : Prop :=
  decodedLength r.results = n ∧ r.cellIds.length = n ∧
  r.messages.length = nonNilCount r.results ∧ r.icons.length = r.messages.length

theorem rowLenInv_appendCell {n : Nat} {r : Row} (c : Cell) (k : Nat)
    (h : RowLenInv n r) : RowLenInv (n + k) (appendCell r c k) := by
  obtain ⟨h1, h2, h3, h4⟩ := h
  obtain ⟨_, _, f3, f4, f5, f6, _⟩ := appendCell_fields r c k
  refine ⟨?_, ?_, ?_, ?_⟩
  · rw [f3, decodedLength_appendRLE, h1]
  · rw [f4, List.length_append, List.length_replicate, h2]
  · rw [f5, f3, List.length_append, nonNilCount_appendRLE, h3]
    by_cases hc : c.result = RowResult.NO_RESULT <;> simp [hc]
  · rw [f6, f5, List.length_append, List.length_append, h4]
    by_cases hc : c.result = RowResult.NO_RESULT <;> simp [hc]

theorem rowLenInv_newRowFor (n : Nat) (name : String) (c : Cell) (hn : 1 ≤ n) :
    RowLenInv n (newRowFor n name c) := by
  unfold newRowFor
  dsimp only
  have base : RowLenInv 0 (blankRow name) := ⟨rfl, rfl, rfl, rfl⟩
  by_cases h : n > 1
  · rw [if_pos h]
    have h1 := rowLenInv_appendCell (n := 0) emptyCell (n - 1) base
    have h2 := rowLenInv_appendCell (n := 0 + (n - 1)) c 1 h1
    have heq : 0 + (n - 1) + 1 = n := by omega
    rwa [heq] at h2
  · rw [if_neg h]
    have heq : n = 1 := by omega
    subst heq
    exact rowLenInv_appendCell (n := 0) c 1 base

theorem appendColumn_rowLenInv (g : Grid) (ic : InflatedColumn)
    (hnd : (ic.cells.map Prod.fst).Nodup)
    (h : ∀ r ∈ g.rows, RowLenInv g.columns.length r) :
    ∀ r ∈ (appendColumn g ic).rows, RowLenInv (appendColumn g ic).columns.length r := by
  intro r' hr'
  rw [appendColumn_columns, List.length_append, List.length_singleton]
  rw [appendColumn_rows g ic hnd] at hr'
  obtain ⟨r'', hr'', hguard⟩ := List.mem_map.mp hr'
  rcases List.mem_append.mp hr'' with hmem | hmem
  · obtain ⟨r0, hr0, hupd⟩ := List.mem_map.mp hmem
    unfold updCell at hupd
    cases hfind : ic.cells.find? (fun nc => nc.1 == r0.name) with
    | some nc =>
      rw [hfind] at hupd
      have hname : nc.1 = r0.name := by simpa using List.find?_some hfind
      have hmemc : nc ∈ ic.cells := List.mem_of_find?_eq_some hfind
      have hany : ic.cells.any (fun mc => mc.1 = r''.name) = true := by
        refine List.any_eq_true.mpr ⟨nc, hmemc, ?_⟩
        rw [← hupd, appendCell_name, hname]
        simp
      rw [← hguard, if_pos hany, ← hupd]
      exact rowLenInv_appendCell nc.2 1 (h r0 hr0)
    | none =>
      rw [hfind] at hupd
      have hany : ic.cells.any (fun mc => mc.1 = r''.name) = false := by
        rw [List.any_eq_false]
        intro mc hmc
        rw [List.find?_eq_none] at hfind
        have hmc2 := hfind mc hmc
        rw [← hupd]
        simpa using fun hh : mc.1 = r0.name => hmc2 (by simpa using hh)
      rw [← hguard, if_neg (by simp [hany]), ← hupd]
      exact rowLenInv_appendCell emptyCell 1 (h r0 hr0)
  · obtain ⟨nc, hnc, hnew⟩ := List.mem_map.mp hmem
    have hmemc : nc ∈ ic.cells := List.mem_of_mem_filter hnc
    have hany : ic.cells.any (fun mc => mc.1 = r''.name) = true := by
      refine List.any_eq_true.mpr ⟨nc, hmemc, ?_⟩
      rw [← hnew, newRowFor_name]
      simp
    rw [← hguard, if_pos hany, ← hnew]
    exact rowLenInv_newRowFor _ _ _ (by omega)

theorem alertRows_rows_fields (failsOpen passesClose : Int) (g : Grid) :
    (alertRows failsOpen passesClose g).columns = g.columns ∧
    ∀ r' ∈ (alertRows failsOpen passesClose g).rows, ∃ r ∈ g.rows,
      r'.name = r.name ∧ r'.id = r.id ∧ r'.results = r.results ∧ r'.cellIds = r.cellIds ∧
      r'.messages = r.messages ∧ r'.icons = r.icons ∧ r'.metric = r.metric ∧
      r'.metrics = r.metrics := by
  refine ⟨rfl, ?_⟩
  intro r' hr'
  obtain ⟨r, hr, hmap⟩ := List.mem_map.mp hr'
  exact ⟨r, hr, by rw [← hmap], by rw [← hmap], by rw [← hmap], by rw [← hmap],
    by rw [← hmap], by rw [← hmap], by rw [← hmap], by rw [← hmap]⟩

theorem insertSorted_mem {lt : α → α → Bool} {x a : α} {l : List α}
    (h : x ∈ insertSorted lt a l) : x = a ∨ x ∈ l := by
  induction l with
  | nil => simpa [insertSorted] using h
  | cons b l ih =>
    unfold insertSorted at h
    by_cases hb : lt a b = true
    · rw [if_pos hb] at h
      simpa using h
    · rw [if_neg hb] at h
      rcases List.mem_cons.mp h with h | h
      · right; simp [h]
      · rcases ih h with h | h
        · exact Or.inl h
        · right; simp [h]

theorem sortSliceStable_mem {lt : α → α → Bool} {x : α} {l : List α}
    (h : x ∈ sortSliceStable lt l) : x ∈ l := by
  unfold sortSliceStable at h
  suffices haux : ∀ (l : List α) (acc : List α),
      x ∈ l.foldl (fun acc a => insertSorted lt a acc) acc → x ∈ acc ∨ x ∈ l by
    rcases haux l [] h with hc | hc
    · simp at hc
    · exact hc
  intro l
  induction l with
  | nil => intro acc h; simpa using h
  | cons a l ih =>
    intro acc h
    rw [List.foldl_cons] at h
    rcases ih _ h with hc | hc
    · rcases insertSorted_mem hc with hc | hc
      · simp [hc]
      · exact Or.inl hc
    · simp [hc]

/-- Every row of `constructGrid`'s output satisfies the length invariant
relative to the produced column count. -/
theorem constructGrid_rowLenInv (group : TestGroup) (cols : List InflatedColumn)
    (hnd : ∀ ic ∈ cols, (ic.cells.map Prod.fst).Nodup) :
    ∀ r ∈ (constructGrid group cols).rows,
      RowLenInv (constructGrid group cols).columns.length r := by
  unfold constructGrid
  set failsOpen := group.numFailuresToAlert with hfo
  set passesClose :=
    if group.numFailuresToAlert > 0 ∧ group.numPassesToDisableAlert = 0 then 1
    else group.numPassesToDisableAlert with hpc
  have main : ∀ (cs : List InflatedColumn) (g : Grid),
      (∀ ic ∈ cs, (ic.cells.map Prod.fst).Nodup) →
      (∀ r ∈ g.rows, RowLenInv g.columns.length r) →
      ∀ r ∈ (cs.foldl (fun g col => alertRows failsOpen passesClose (appendColumn g col)) g).rows,
        RowLenInv
          (cs.foldl (fun g col =>
            alertRows failsOpen passesClose (appendColumn g col)) g).columns.length r := by
    intro cs
    induction cs with
    | nil => intro g _ hg; simpa using hg
    | cons ic cs ih =>
      intro g hcs hg
      rw [List.foldl_cons]
      refine ih _ (fun x hx => hcs x (by simp [hx])) ?_
      intro r hr
      obtain ⟨hcols, hrows⟩ := alertRows_rows_fields failsOpen passesClose (appendColumn g ic)
      rw [hcols]
      obtain ⟨r0, hr0, _, _, e3, e4, e5, e6, _, _⟩ := hrows r hr
      have hinv := appendColumn_rowLenInv g ic (hcs ic (by simp)) hg r0 hr0
      obtain ⟨i1, i2, i3, i4⟩ := hinv
      exact ⟨by rw [e3]; exact i1, by rw [e4]; exact i2, by rw [e5, e3]; exact i3,
        by rw [e6, e5]; exact i4⟩
  intro r hr
  simp only at hr ⊢
  obtain ⟨r0, hr0, hmap⟩ := List.mem_map.mp hr
  have hr0s := sortSliceStable_mem hr0
  have hinv := main cols { columns := [], rows := [] } hnd (by simp) r0 hr0s
  obtain ⟨i1, i2, i3, i4⟩ := hinv
  exact ⟨by rw [← hmap]; exact i1, by rw [← hmap]; exact i2,
    by rw [← hmap]; exact i3, by rw [← hmap]; exact i4⟩


/-! ## Order properties of the natural-order comparator -/

theorem keyLt_irrefl (a : Nat × Nat × Nat) : keyLt a a = false := by
  obtain ⟨a1, a2, a3⟩ := a
  simp [keyLt]

theorem keyLt_trans {a b c : Nat × Nat × Nat} (h1 : keyLt a b = true)
    (h2 : keyLt b c = true) : keyLt a c = true := by
  obtain ⟨a1, a2, a3⟩ := a
  obtain ⟨b1, b2, b3⟩ := b
  obtain ⟨c1, c2, c3⟩ := c
  simp only [keyLt, Bool.or_eq_true, Bool.and_eq_true, decide_eq_true_eq] at h1 h2 ⊢
  omega

theorem keyLt_asymm {a b : Nat × Nat × Nat} (h : keyLt a b = true) :
    keyLt b a = false := by
  obtain ⟨a1, a2, a3⟩ := a
  obtain ⟨b1, b2, b3⟩ := b
  simp only [keyLt, Bool.or_eq_true, Bool.and_eq_true, decide_eq_true_eq,
    Bool.or_eq_false_iff, Bool.and_eq_false_iff, decide_eq_false_iff_not] at h ⊢
  omega

theorem keysLt_trans : ∀ {x y z : List (Nat × Nat × Nat)}, keysLt x y = true →
    keysLt y z = true → keysLt x z = true
  | [], [], _, h1, _ => by simp [keysLt] at h1
  | [], _ :: _, [], _, h2 => by simp [keysLt] at h2
  | [], _ :: _, _ :: _, _, _ => by simp [keysLt]
  | _ :: _, [], _, h1, _ => by simp [keysLt] at h1
  | _ :: _, _ :: _, [], _, h2 => by simp [keysLt] at h2
  | a :: as, b :: bs, c :: cs, h1, h2 => by
    simp only [keysLt, Bool.or_eq_true, Bool.and_eq_true, decide_eq_true_eq] at h1 h2 ⊢
    rcases h1 with h1 | ⟨hab, h1⟩
    · rcases h2 with h2 | ⟨hbc, h2⟩
      · exact Or.inl (keyLt_trans h1 h2)
      · subst hbc
        exact Or.inl h1
    · subst hab
      rcases h2 with h2 | ⟨hbc, h2⟩
      · exact Or.inl h2
      · subst hbc
        exact Or.inr ⟨rfl, keysLt_trans h1 h2⟩

theorem keysLt_asymm : ∀ {x y : List (Nat × Nat × Nat)}, keysLt x y = true →
    keysLt y x = false
  | [], [], h => by simp [keysLt] at h
  | [], _ :: _, _ => by simp [keysLt]
  | _ :: _, [], h => by simp [keysLt] at h
  | a :: as, b :: bs, h => by
    simp only [keysLt, Bool.or_eq_true, Bool.and_eq_true, decide_eq_true_eq] at h
    simp only [keysLt, Bool.or_eq_false_iff, Bool.and_eq_false_iff, decide_eq_false_iff_not]
    rcases h with h | ⟨hab, h⟩
    · refine ⟨keyLt_asymm h, Or.inl ?_⟩
      intro hba
      subst hba
      rw [keyLt_irrefl] at h
      exact Bool.false_ne_true h
    · subst hab
      exact ⟨keyLt_irrefl a, Or.inr (keysLt_asymm h)⟩

theorem naturalLess_trans {a b c : String} (h1 : naturalLess a b = true)
    (h2 : naturalLess b c = true) : naturalLess a c = true :=
  keysLt_trans h1 h2

theorem naturalLess_asymm {a b : String} (h : naturalLess a b = true) :
    naturalLess b a = false :=
  keysLt_asymm h

/-! ## Sortedness and stability of the sort model -/

theorem insertSorted_pairwise (lt : α → α → Bool)
    (htrans : ∀ a b c, lt a b = true → lt b c = true → lt a c = true)
    (hasymm : ∀ a b, lt a b = true → lt b a = false)
    (a : α) (l : List α) (hl : l.Pairwise (fun x y => lt y x = false)) :
    (insertSorted lt a l).Pairwise (fun x y => lt y x = false) := by
  induction l with
  | nil => simp [insertSorted]
  | cons b l ih =>
    rw [List.pairwise_cons] at hl
    obtain ⟨hb, hl⟩ := hl
    unfold insertSorted
    by_cases h : lt a b = true
    · rw [if_pos h, List.pairwise_cons]
      refine ⟨?_, List.pairwise_cons.mpr ⟨hb, hl⟩⟩
      intro y hy
      rcases List.mem_cons.mp hy with hy | hy
      · rw [hy]
        exact hasymm a b h
      · cases hya : lt y a with
        | false => rfl
        | true =>
          have := htrans y a b hya h
          rw [hb y hy] at this
          exact absurd this Bool.false_ne_true
    · rw [if_neg h, List.pairwise_cons]
      refine ⟨?_, ih hl⟩
      intro y hy
      rcases insertSorted_mem hy with hy | hy
      · subst hy
        simpa using h
      · exact hb y hy

theorem sortSliceStable_pairwise (lt : α → α → Bool)
    (htrans : ∀ a b c, lt a b = true → lt b c = true → lt a c = true)
    (hasymm : ∀ a b, lt a b = true → lt b a = false) (l : List α) :
    (sortSliceStable lt l).Pairwise (fun x y => lt y x = false) := by
  unfold sortSliceStable
  suffices haux : ∀ (l acc : List α), acc.Pairwise (fun x y => lt y x = false) →
      (l.foldl (fun acc a => insertSorted lt a acc) acc).Pairwise
        (fun x y => lt y x = false) by
    exact haux l [] (by simp)
  intro l
  induction l with
  | nil => intro acc h; simpa using h
  | cons a l ih =>
    intro acc h
    rw [List.foldl_cons]
    exact ih _ (insertSorted_pairwise lt htrans hasymm a acc h)

theorem insertSorted_map (f : α → β) (lt : β → β → Bool) (a : α) (l : List α) :
    insertSorted lt (f a) (l.map f) =
      (insertSorted (fun x y => lt (f x) (f y)) a l).map f := by
  induction l with
  | nil => rfl
  | cons b l ih =>
    simp only [List.map_cons]
    unfold insertSorted
    by_cases h : lt (f a) (f b) = true
    · rw [if_pos h, if_pos h, List.map_cons, List.map_cons]
    · rw [if_neg h, if_neg h, List.map_cons, ih]

theorem sortSliceStable_map (f : α → β) (lt : β → β → Bool) (l : List α) :
    sortSliceStable lt (l.map f) =
      (sortSliceStable (fun x y => lt (f x) (f y)) l).map f := by
  unfold sortSliceStable
  suffices haux : ∀ (l acc : List α),
      (l.map f).foldl (fun acc a => insertSorted lt a acc) (acc.map f) =
        (l.foldl (fun acc a => insertSorted (fun x y => lt (f x) (f y)) a acc) acc).map f by
    simpa using haux l []
  intro l
  induction l with
  | nil => intro acc; simp
  | cons a l ih =>
    intro acc
    rw [List.map_cons, List.foldl_cons, List.foldl_cons, insertSorted_map f lt a acc]
    exact ih (insertSorted (fun x y => lt (f x) (f y)) a acc)


/-! ## The metric-name synchronization invariant -/

theorem newRowFor_sync (n : Nat) (name : String) (c : Cell) :
    (newRowFor n name c).metric = (newRowFor n name c).metrics.map Metric.name := by
  unfold newRowFor
  dsimp only
  by_cases h : n > 1
  · rw [if_pos h]
    exact appendCell_sync _ _ _ (appendCell_sync _ _ _ rfl)
  · rw [if_neg h]
    exact appendCell_sync _ _ _ rfl

theorem addCellStep_sync (n : Nat) (g : Grid) (nc : String × Cell)
    (h : ∀ r ∈ g.rows, r.metric = r.metrics.map Metric.name) :
    ∀ r ∈ (addCellStep n g nc).rows, r.metric = r.metrics.map Metric.name := by
  intro r hr
  unfold addCellStep at hr
  by_cases hc : g.rows.any (fun r => r.name = nc.1) = true
  · rw [if_pos hc] at hr
    obtain ⟨r0, hr0, heq⟩ := List.mem_map.mp hr
    by_cases hn : r0.name = nc.1
    · rw [if_pos hn] at heq
      rw [← heq]
      exact appendCell_sync _ _ _ (h r0 hr0)
    · rw [if_neg hn] at heq
      rw [← heq]
      exact h r0 hr0
  · rw [if_neg hc] at hr
    rcases List.mem_append.mp hr with hm | hm
    · exact h r hm
    · rw [List.mem_singleton.mp hm]
      exact newRowFor_sync _ _ _

theorem foldl_addCellStep_sync (n : Nat) (cells : List (String × Cell)) (g : Grid)
    (h : ∀ r ∈ g.rows, r.metric = r.metrics.map Metric.name) :
    ∀ r ∈ (cells.foldl (addCellStep n) g).rows,
      r.metric = r.metrics.map Metric.name := by
  induction cells generalizing g with
  | nil => simpa using h
  | cons nc cells ih =>
    rw [List.foldl_cons]
    exact ih _ (addCellStep_sync n g nc h)

theorem appendColumn_sync (g : Grid) (ic : InflatedColumn)
    (h : ∀ r ∈ g.rows, r.metric = r.metrics.map Metric.name) :
    ∀ r ∈ (appendColumn g ic).rows, r.metric = r.metrics.map Metric.name := by
  unfold appendColumn
  dsimp only
  intro r hr
  obtain ⟨r0, hr0, heq⟩ := List.mem_map.mp hr
  have h0 : r0.metric = r0.metrics.map Metric.name :=
    foldl_addCellStep_sync _ ic.cells
      { columns := g.columns ++ [ic.column], rows := g.rows } h r0 hr0
  by_cases hc : ic.cells.any (fun nc => nc.1 = r0.name) = true
  · rw [if_pos hc] at heq
    rw [← heq]
    exact h0
  · rw [if_neg hc] at heq
    rw [← heq]
    exact appendCell_sync _ _ _ h0

theorem alertRows_sync (failsOpen passesClose : Int) (g : Grid)
    (h : ∀ r ∈ g.rows, r.metric = r.metrics.map Metric.name) :
    ∀ r ∈ (alertRows failsOpen passesClose g).rows,
      r.metric = r.metrics.map Metric.name := by
  intro r hr
  obtain ⟨_, hrows⟩ := alertRows_rows_fields failsOpen passesClose g
  obtain ⟨r0, hr0, _, _, _, _, _, _, e7, e8⟩ := hrows r hr
  rw [e7, e8]
  exact h r0 hr0

/-- Every row of the grid before the final sorts satisfies the
metric-name synchronization invariant; no uniqueness of cell names is
needed. -/
theorem constructGrid_fold_sync (failsOpen passesClose : Int)
    (cols : List InflatedColumn) (g : Grid)
    (h : ∀ r ∈ g.rows, r.metric = r.metrics.map Metric.name) :
    ∀ r ∈ (cols.foldl (fun g col =>
        alertRows failsOpen passesClose (appendColumn g col)) g).rows,
      r.metric = r.metrics.map Metric.name := by
  induction cols generalizing g with
  | nil => simpa using h
  | cons ic cols ih =>
    rw [List.foldl_cons]
    exact ih _ (alertRows_sync _ _ _ (appendColumn_sync g ic h))


/-! ## Alert recomputation commutes with grid assembly (for the
single-final-evaluation refinement) -/

/-- Erase every row's `AlertInfo`. -/
def clearAlerts (g : Grid) : Grid :=
  { g with rows := g.rows.map (fun r => { r with alertInfo := none }) }

theorem addMetricSample_alert (r : Row) (nv : String × Rat) (a : Option AlertInfo) :
    addMetricSample { r with alertInfo := a } nv =
      { addMetricSample r nv with alertInfo := a } := by
  simp [addMetricSample]

theorem foldl_addMetricSample_alert (ms : List (String × Rat)) (r : Row)
    (a : Option AlertInfo) :
    ms.foldl addMetricSample { r with alertInfo := a } =
      { ms.foldl addMetricSample r with alertInfo := a } := by
  induction ms generalizing r with
  | nil => simp
  | cons nv ms ih =>
    rw [List.foldl_cons, List.foldl_cons, addMetricSample_alert, ih]

theorem appendCellOnce_alert (r : Row) (c : Cell) (a : Option AlertInfo) :
    appendCellOnce { r with alertInfo := a } c =
      { appendCellOnce r c with alertInfo := a } := by
  unfold appendCellOnce
  by_cases h : c.result = RowResult.NO_RESULT
  · simp [h]
  · simp only [if_neg h]
    have : ({ r with alertInfo := a, cellIds := r.cellIds ++ [c.cellID] } : Row) =
        { ({ r with cellIds := r.cellIds ++ [c.cellID] } : Row) with alertInfo := a } := rfl
    rw [show ({ r with alertInfo := a } : Row).cellIds = r.cellIds from rfl]
    rw [this, foldl_addMetricSample_alert]

theorem appendCell_alert (r : Row) (c : Cell) (k : Nat) (a : Option AlertInfo) :
    appendCell { r with alertInfo := a } c k =
      { appendCell r c k with alertInfo := a } := by
  unfold appendCell
  rw [show ({ r with alertInfo := a } : Row).results = r.results from rfl]
  rw [show ({ r with alertInfo := a, results := appendRLE r.results c.result k } : Row) =
    { ({ r with results := appendRLE r.results c.result k } : Row) with alertInfo := a }
      from rfl]
  generalize ({ r with results := appendRLE r.results c.result k } : Row) = r0
  induction k generalizing r0 with
  | zero => simp
  | succ k ih =>
    rw [List.range_succ, List.foldl_append, List.foldl_append, List.foldl_cons,
      List.foldl_cons, List.foldl_nil, List.foldl_nil, ih r0, appendCellOnce_alert]

theorem clearRow_eq (r : Row) (h : r.alertInfo = none) :
    ({ r with alertInfo := none } : Row) = r := by
  cases r
  simp_all

theorem newRowFor_alertInfo (n : Nat) (name : String) (c : Cell) :
    (newRowFor n name c).alertInfo = none := by
  unfold newRowFor
  dsimp only
  rw [appendCell_alertInfo]
  by_cases h : n > 1
  · rw [if_pos h, appendCell_alertInfo]
    rfl
  · rw [if_neg h]
    rfl

theorem grid_eq {g1 g2 : Grid} (hc : g1.columns = g2.columns) (hr : g1.rows = g2.rows) :
    g1 = g2 := by
  cases g1
  cases g2
  simp_all

theorem addCellStep_columns (n : Nat) (g : Grid) (nc : String × Cell) :
    (addCellStep n g nc).columns = g.columns := by
  unfold addCellStep
  split <;> rfl

theorem addCellStep_clear (n : Nat) (g : Grid) (nc : String × Cell) :
    addCellStep n (clearAlerts g) nc = clearAlerts (addCellStep n g nc) := by
  refine grid_eq ?_ ?_
  · rw [addCellStep_columns]
    show g.columns = (clearAlerts (addCellStep n g nc)).columns
    show g.columns = (addCellStep n g nc).columns
    rw [addCellStep_columns]
  · show (addCellStep n (clearAlerts g) nc).rows =
      (addCellStep n g nc).rows.map (fun r => { r with alertInfo := none })
    unfold addCellStep
    have hany : (clearAlerts g).rows.any (fun r => r.name = nc.1) =
        g.rows.any (fun r => r.name = nc.1) :=
      any_name_map g.rows (fun r => ({ r with alertInfo := none } : Row))
        (fun r _ => rfl) nc.1
    by_cases h : g.rows.any (fun r => r.name = nc.1) = true
    · rw [if_pos (by rw [hany]; exact h), if_pos h]
      show ((clearAlerts g).rows.map _) = _
      show ((g.rows.map (fun r => ({ r with alertInfo := none } : Row))).map _) = _
      rw [List.map_map, List.map_map]
      refine List.map_congr_left ?_
      intro r _
      simp only [Function.comp_apply]
      by_cases hn : r.name = nc.1
      · rw [show ({ r with alertInfo := none } : Row).name = r.name from rfl]
        rw [if_pos hn, if_pos hn, appendCell_alert]
      · rw [show ({ r with alertInfo := none } : Row).name = r.name from rfl]
        rw [if_neg hn, if_neg hn]
    · rw [if_neg (by rw [hany]; exact h), if_neg h]
      show (clearAlerts g).rows ++ [newRowFor n nc.1 nc.2] = _
      show (g.rows.map (fun r => ({ r with alertInfo := none } : Row))) ++
        [newRowFor n nc.1 nc.2] = _
      rw [List.map_append, List.map_cons, List.map_nil]
      rw [clearRow_eq _ (newRowFor_alertInfo n nc.1 nc.2)]

theorem foldl_addCellStep_clear (n : Nat) (cells : List (String × Cell)) (g : Grid) :
    cells.foldl (addCellStep n) (clearAlerts g) =
      clearAlerts (cells.foldl (addCellStep n) g) := by
  induction cells generalizing g with
  | nil => rfl
  | cons nc cells ih =>
    rw [List.foldl_cons, List.foldl_cons, addCellStep_clear, ih]

theorem appendColumn_clear (g : Grid) (ic : InflatedColumn) :
    appendColumn (clearAlerts g) ic = clearAlerts (appendColumn g ic) := by
  unfold appendColumn
  dsimp only
  rw [show ({ columns := (clearAlerts g).columns ++ [ic.column], rows := (clearAlerts g).rows } : Grid) = clearAlerts { columns := g.columns ++ [ic.column], rows := g.rows } from rfl]
  rw [show (clearAlerts g).columns = g.columns from rfl]
  rw [foldl_addCellStep_clear]
  generalize hg1 : (List.foldl (addCellStep (g.columns ++ [ic.column]).length) ({ columns := g.columns ++ [ic.column], rows := g.rows } : Grid) ic.cells) = g1
  refine grid_eq rfl ?_
  simp only [clearAlerts, List.map_map]
  refine List.map_congr_left ?_
  intro r _
  simp only [Function.comp_apply]
  by_cases hc : ic.cells.any (fun nc => nc.1 = r.name) = true
  · simp [hc]
  · rw [Bool.not_eq_true] at hc
    simp [hc, appendCell_alert]

theorem alertRow_ignores_alert (cols : List Column) (r : Row) (a : Option AlertInfo)
    (failuresToOpen passesToClose : Int) :
    alertRow cols { r with alertInfo := a } failuresToOpen passesToClose =
      alertRow cols r failuresToOpen passesToClose := rfl

theorem alertRows_clear (failsOpen passesClose : Int) (g : Grid) :
    alertRows failsOpen passesClose (clearAlerts g) =
      alertRows failsOpen passesClose g := by
  unfold alertRows clearAlerts
  simp only [Grid.mk.injEq, true_and, List.map_map]
  refine List.map_congr_left ?_
  intro r _
  rfl

theorem clear_alertRows (failsOpen passesClose : Int) (g : Grid) :
    clearAlerts (alertRows failsOpen passesClose g) = clearAlerts g := by
  unfold alertRows clearAlerts
  simp only [Grid.mk.injEq, true_and, List.map_map]
  refine List.map_congr_left ?_
  intro r _
  rfl

theorem foldl_appendColumn_clear (cols : List InflatedColumn) (g : Grid) :
    cols.foldl (fun g col => appendColumn g col) (clearAlerts g) =
      clearAlerts (cols.foldl (fun g col => appendColumn g col) g) := by
  induction cols generalizing g with
  | nil => rfl
  | cons ic cols ih =>
    rw [List.foldl_cons, List.foldl_cons, appendColumn_clear, ih]

theorem foldA_eq_alertRows_foldPlain (failsOpen passesClose : Int) :
    ∀ (rest : List InflatedColumn) (c : InflatedColumn) (g : Grid),
      (c :: rest).foldl (fun g col =>
          alertRows failsOpen passesClose (appendColumn g col)) g =
        alertRows failsOpen passesClose
          ((c :: rest).foldl (fun g col => appendColumn g col) g) := by
  intro rest
  induction rest with
  | nil => intro c g; rfl
  | cons c2 rest ih =>
    intro c g
    rw [List.foldl_cons]
    rw [ih c2 (alertRows failsOpen passesClose (appendColumn g c))]
    rw [show List.foldl (fun g col => appendColumn g col) g (c :: c2 :: rest) = List.foldl (fun g col => appendColumn g col) (appendColumn g c) (c2 :: rest) from rfl]
    generalize appendColumn g c = h0
    conv_lhs => rw [← alertRows_clear]
    rw [← foldl_appendColumn_clear, clear_alertRows, foldl_appendColumn_clear,
      alertRows_clear]



/-! ## Step characterizations of the alert scan -/

theorem alertStep_NO_RESULT (fo pc : Int) (s : AlertState) (col : Column) :
    alertStep fo pc s col .NO_RESULT = .cont s := rfl

theorem alertStep_RUNNING (fo pc : Int) (s : AlertState) (col : Column) :
    alertStep fo pc s col .RUNNING =
      .cont { s with compressedIdx := s.compressedIdx + 1 } := rfl

theorem alertStep_PASS (fo pc : Int) (s : AlertState) (col : Column) :
    alertStep fo pc s col .PASS =
      if s.failures ≥ fo then .brk { s with passes := s.passes + 1, latestPass := some col }
      else if s.passes + 1 ≥ pc then .ret
      else .cont { s with passes := s.passes + 1, failures := 0, compressedIdx := s.compressedIdx + 1 } := rfl

theorem alertStep_FAIL (fo pc : Int) (s : AlertState) (col : Column) :
    alertStep fo pc s col .FAIL =
      .cont { s with passes := 0, failures := s.failures + 1, totalFailures := s.totalFailures + 1, failIdx := if s.failures + 1 = 1 then s.compressedIdx else s.failIdx, lastFail := some col, compressedIdx := s.compressedIdx + 1 } := by
  show (let s1 : AlertState := { s with passes := 0, failures := s.failures + 1, totalFailures := s.totalFailures + 1 }; let s2 := if s1.failures = (1 : Int) then { s1 with failIdx := s1.compressedIdx } else s1; StepOut.cont { s2 with lastFail := some col, compressedIdx := s2.compressedIdx + 1 }) = _
  by_cases h : s.failures + 1 = (1 : Int)
  · simp only [h, if_pos (show ((⟨s.failures + 1, s.totalFailures + 1, 0, s.compressedIdx, s.lastFail, s.latestPass, s.failIdx⟩ : AlertState)).failures = (1 : Int) from h)]
    rfl
  · simp only [if_neg h, if_neg (show ¬((⟨s.failures + 1, s.totalFailures + 1, 0, s.compressedIdx, s.lastFail, s.latestPass, s.failIdx⟩ : AlertState)).failures = (1 : Int) from h)]

theorem alertStep_FLAKY (fo pc : Int) (s : AlertState) (col : Column) :
    alertStep fo pc s col .FLAKY =
      if s.failures ≥ fo then .brk { s with passes := 0 }
      else .cont { s with passes := 0, failures := 0, compressedIdx := s.compressedIdx + 1 } := rfl

/-! ## Counting failures in the alert scan -/

/-- Number of `FAIL` entries in a decoded result stream. -/
def countFails (l : List RowResult) : Nat :=
  l.countP (fun x => x == RowResult.FAIL)

theorem countFails_cons (r : RowResult) (l : List RowResult) :
    countFails (r :: l) = countFails l + if r = RowResult.FAIL then 1 else 0 := by
  unfold countFails
  rw [List.countP_cons]
  by_cases h : r = RowResult.FAIL <;> simp [h]

theorem alertScan_failures_lt (fOpen pClose : Int) :
    ∀ (xs : List (Column × RowResult)) (s s' : AlertState),
      0 ≤ s.failures →
      s.failures + (countFails (xs.map Prod.snd) : Int) < fOpen →
      alertScan fOpen pClose xs s = some s' →
      s'.failures < fOpen := by
  intro xs
  induction xs with
  | nil =>
    intro s s' h0 hlt hscan
    unfold alertScan at hscan
    injection hscan with hs
    subst hs
    simpa [countFails] using hlt
  | cons p rest ih =>
    obtain ⟨col, raw⟩ := p
    intro s s' h0 hlt hscan
    rw [List.map_cons, countFails_cons] at hlt
    unfold alertScan at hscan
    cases raw with
    | NO_RESULT =>
      rw [alertStep_NO_RESULT] at hscan
      exact ih s s' h0 (by simpa using hlt) hscan
    | RUNNING =>
      rw [alertStep_RUNNING] at hscan
      exact ih _ s' (by simpa using h0) (by simpa using hlt) hscan
    | PASS =>
      have hlt' : s.failures + (countFails (rest.map Prod.snd) : Int) < fOpen := by
        simpa using hlt
      have hflt : s.failures < fOpen := by
        have hge : (0 : Int) ≤ (countFails (rest.map Prod.snd) : Int) := Int.ofNat_nonneg _
        omega
      rw [alertStep_PASS] at hscan
      rw [if_neg (by omega)] at hscan
      by_cases hp : s.passes + 1 ≥ pClose
      · rw [if_pos hp] at hscan
        cases hscan
      · rw [if_neg hp] at hscan
        refine ih _ s' (by simp) ?_ hscan
        simp only
        omega
    | FAIL =>
      have hlt' : s.failures + ((countFails (rest.map Prod.snd) : Int) + 1) < fOpen := by
        simp at hlt
        omega
      rw [alertStep_FAIL] at hscan
      refine ih _ s' (by simp only; omega) ?_ hscan
      simp only
      omega
    | FLAKY =>
      have hlt' : s.failures + (countFails (rest.map Prod.snd) : Int) < fOpen := by
        simpa using hlt
      have hflt : s.failures < fOpen := by
        have hge : (0 : Int) ≤ (countFails (rest.map Prod.snd) : Int) := Int.ofNat_nonneg _
        omega
      rw [alertStep_FLAKY] at hscan
      rw [if_neg (by omega)] at hscan
      refine ih _ s' (by simp) ?_ hscan
      simp only
      omega

theorem countFails_zipPad_le (cols : List Column) :
    ∀ (results : List RowResult),
      countFails ((zipPad cols results).map Prod.snd) ≤ countFails results := by
  induction cols with
  | nil => intro results; simp [zipPad, countFails]
  | cons c cs ih =>
    intro results
    cases results with
    | nil =>
      have hz : ∀ (ds : List Column), countFails ((zipPad ds []).map Prod.snd) = 0 := by
        intro ds
        induction ds with
        | nil => rfl
        | cons d ds ih2 =>
          rw [show zipPad (d :: ds) [] = (d, RowResult.NO_RESULT) :: zipPad ds [] from rfl]
          rw [List.map_cons, countFails_cons]
          simpa using ih2
      simp [hz]
    | cons r rs =>
      rw [show zipPad (c :: cs) (r :: rs) = (c, r) :: zipPad cs rs from rfl]
      rw [List.map_cons, countFails_cons, countFails_cons]
      have hle := ih rs
      by_cases hr : r = RowResult.FAIL
      · simp only [hr]
        omega
      · simp only [if_neg hr]
        omega


/-! ## Sum of sparse-metric run lengths -/

theorem sumRunLengths_append_pair :
    ∀ (xs : List Int), xs.length % 2 = 0 → ∀ (a b : Int),
      sumRunLengths (xs ++ [a, b]) = sumRunLengths xs + b
  | [], _, a, b => by simp [sumRunLengths]
  | [_], h, _, _ => by simp at h
  | x :: y :: rest, h, a, b => by
    have hr : rest.length % 2 = 0 := by
      simp only [List.length_cons] at h
      omega
    show sumRunLengths (x :: y :: (rest ++ [a, b])) = sumRunLengths (x :: y :: rest) + b
    show y + sumRunLengths (rest ++ [a, b]) = y + sumRunLengths rest + b
    rw [sumRunLengths_append_pair rest hr a b]
    omega

theorem sumRunLengths_bump :
    ∀ (xs : List Int), xs.length % 2 = 0 → xs ≠ [] →
      sumRunLengths (xs.set (xs.length - 1) (xs.getD (xs.length - 1) 0 + 1)) =
        sumRunLengths xs + 1
  | [], _, hne => absurd rfl hne
  | [_], h, _ => by simp at h
  | x :: y :: rest, h, _ => by
    have hr : rest.length % 2 = 0 := by
      simp only [List.length_cons] at h
      omega
    by_cases he : rest = []
    · subst he
      show sumRunLengths ([x, y].set 1 ([x, y].getD 1 0 + 1)) = sumRunLengths [x, y] + 1
      show sumRunLengths [x, y + 1] = sumRunLengths [x, y] + 1
      show (y + 1) + sumRunLengths [] = (y + sumRunLengths []) + 1
      omega
    · have hlen : (x :: y :: rest).length - 1 = (rest.length - 1) + 2 := by
        have hne0 : rest.length ≠ 0 := fun hc => he (List.eq_nil_of_length_eq_zero hc)
        simp only [List.length_cons]
        omega
      rw [hlen]
      rw [show (x :: y :: rest).set ((rest.length - 1) + 2) ((x :: y :: rest).getD ((rest.length - 1) + 2) 0 + 1) = x :: y :: rest.set (rest.length - 1) (rest.getD (rest.length - 1) 0 + 1) from rfl]
      show y + sumRunLengths (rest.set (rest.length - 1) (rest.getD (rest.length - 1) 0 + 1)) = (y + sumRunLengths rest) + 1
      rw [sumRunLengths_bump rest hr he]
      omega

/-! ## Decoded results of a freshly created (back-filled) row -/

theorem decode_newRowFor (n : Nat) (name : String) (c : Cell) :
    decodeResults (newRowFor n name c).results =
      List.replicate (n - 1) RowResult.NO_RESULT ++ [c.result] := by
  unfold newRowFor
  dsimp only
  by_cases h : n > 1
  · rw [if_pos h, appendCell_results, decode_appendRLE, appendCell_results,
      decode_appendRLE]
    rw [show (blankRow name).results = [] from rfl]
    rw [show decodeResults [] = [] from rfl]
    simp [emptyCell]
  · rw [if_neg h, appendCell_results, decode_appendRLE]
    rw [show (blankRow name).results = [] from rfl]
    rw [show decodeResults [] = [] from rfl]
    have : n - 1 = 0 := by omega
    rw [this]
    simp


/-! ## Concrete fixtures for counterexamples and witnesses -/

/-- A passing cell used in the examples. -/
def exCellPass : Cell :=
  { result := .PASS, cellID := "c1", message := "m1", icon := "i1", metrics := [] }

/-- Two inflated columns: the first has one passing cell for `t1`, the
second has no cells at all, so `t1` receives an empty (`NO_RESULT`) cell. -/
def exCols : List InflatedColumn :=
  [{ column := { build := "b2", started := 2, extra := [] }, cells := [("t1", exCellPass)] },
   { column := { build := "b1", started := 1, extra := [] }, cells := [] }]

/-- A group with alerts disabled. -/
def exGroup : TestGroup := { numFailuresToAlert := 0, numPassesToDisableAlert := 0 }

/-! ## C1 -/

/-- C1 counterexample: the claim `len(cellIds) = len(messages) = len(icons)
= len(grid.columns)` is false on the code: for a grid with a `NO_RESULT`
cell (row `t1` missing from the second column), `appendCell` skips the
`messages`/`icons` append ("Javascript client expects no result cells to
skip icons/messages", updater.go:341), so `len(messages) = 1` while
`len(grid.columns) = 2`. -/
theorem c1_all_lengths_equal_counterexample :
    ¬ ∀ r ∈ (constructGrid exGroup exCols).rows,
        r.cellIds.length = (constructGrid exGroup exCols).columns.length ∧
        r.messages.length = (constructGrid exGroup exCols).columns.length ∧
        r.icons.length = (constructGrid exGroup exCols).columns.length := by
  decide

/-- C1 (amended): for every grid built by `constructGrid` (cell names
unique per column, as Go map keys are), every row has
`len(cellIds) = len(grid.columns)`, while `len(messages) = len(icons)` =
the number of decoded cells whose result is not `NO_RESULT`. -/
theorem c1_row_side_array_lengths :
    ∀ (group : TestGroup) (cols : List InflatedColumn),
      (∀ ic ∈ cols, (ic.cells.map Prod.fst).Nodup) →
      ∀ r ∈ (constructGrid group cols).rows,
        r.cellIds.length = (constructGrid group cols).columns.length ∧
        r.messages.length =
          (decodeResults r.results).countP (fun x => decide (x ≠ RowResult.NO_RESULT)) ∧
        r.icons.length = r.messages.length := by
  intro group cols hnd r hr
  obtain ⟨_, h2, h3, h4⟩ := constructGrid_rowLenInv group cols hnd r hr
  exact ⟨h2, by rw [h3, nonNilCount_eq], h4⟩

/-- Witness for C1 (amended) at the concrete example grid. -/
theorem c1_row_side_array_lengths_witness :
    ((constructGrid exGroup exCols).rows.getD 0 (blankRow "")).cellIds.length =
        (constructGrid exGroup exCols).columns.length ∧
      ((constructGrid exGroup exCols).rows.getD 0 (blankRow "")).messages.length =
        (decodeResults ((constructGrid exGroup exCols).rows.getD 0 (blankRow "")).results).countP
          (fun x => decide (x ≠ RowResult.NO_RESULT)) ∧
      ((constructGrid exGroup exCols).rows.getD 0 (blankRow "")).icons.length =
        ((constructGrid exGroup exCols).rows.getD 0 (blankRow "")).messages.length :=
  c1_row_side_array_lengths exGroup exCols (by decide) _ (by decide)

/-! ## C2 -/

/-- C2: every row's run-length decoded `results` covers exactly
`len(grid.columns)` cells; newly created rows are back-filled with `n - 1`
empty cells when the grid has `n` columns at creation time, and rows
missing from a column receive one empty cell. -/
theorem c2_decoded_results_cover_columns :
    (∀ (group : TestGroup) (cols : List InflatedColumn),
      (∀ ic ∈ cols, (ic.cells.map Prod.fst).Nodup) →
      ∀ r ∈ (constructGrid group cols).rows,
        decodedLength r.results = (constructGrid group cols).columns.length) ∧
    (∀ (g : Grid) (ic : InflatedColumn) (name : String) (c : Cell),
      (ic.cells.map Prod.fst).Nodup → (name, c) ∈ ic.cells →
      (∀ r ∈ g.rows, r.name ≠ name) →
      ∃ r ∈ (appendColumn g ic).rows, r.name = name ∧
        decodeResults r.results =
          List.replicate (g.columns.length + 1 - 1) RowResult.NO_RESULT ++ [c.result]) ∧
    (∀ (g : Grid) (ic : InflatedColumn) (r : Row),
      (ic.cells.map Prod.fst).Nodup → r ∈ g.rows → (∀ nc ∈ ic.cells, nc.1 ≠ r.name) →
      appendCell r emptyCell 1 ∈ (appendColumn g ic).rows) := by
  refine ⟨?_, ?_, ?_⟩
  · intro group cols hnd r hr
    exact (constructGrid_rowLenInv group cols hnd r hr).1
  · intro g ic name c hnd hmem hno
    rw [appendColumn_rows g ic hnd]
    have hanyfalse : g.rows.any (fun r => r.name = name) = false := by
      rw [List.any_eq_false]
      intro r hr
      simpa using hno r hr
    have hguard : ic.cells.any (fun nc => nc.1 = (newRowFor (g.columns.length + 1) name c).name) = true := by
      refine List.any_eq_true.mpr ⟨(name, c), hmem, ?_⟩
      rw [newRowFor_name]
      simp
    refine ⟨newRowFor (g.columns.length + 1) name c, ?_, newRowFor_name _ _ _, ?_⟩
    · refine List.mem_map.mpr ⟨newRowFor (g.columns.length + 1) name c, ?_, ?_⟩
      · refine List.mem_append_right _ (List.mem_map.mpr ⟨(name, c), ?_, rfl⟩)
        refine List.mem_filter.mpr ⟨hmem, ?_⟩
        simp [hanyfalse]
      · rw [if_pos hguard]
    · rw [decode_newRowFor]
  · intro g ic r hnd hr hno
    rw [appendColumn_rows g ic hnd]
    have hguardf : ic.cells.any (fun nc => nc.1 = r.name) = false := by
      rw [List.any_eq_false]
      intro nc hnc
      simpa using hno nc hnc
    refine List.mem_map.mpr ⟨r, ?_, ?_⟩
    · refine List.mem_append_left _ (List.mem_map.mpr ⟨r, hr, ?_⟩)
      refine updCell_not_mem ic.cells r ?_
      intro hc
      obtain ⟨nc, hnc, he⟩ := List.mem_map.mp hc
      exact hno nc hnc he
    · rw [if_neg (by simp [hguardf])]

/-- Witness for C2 at the concrete example grid. -/
theorem c2_decoded_results_cover_columns_witness :
    decodedLength ((constructGrid exGroup exCols).rows.getD 0 (blankRow "")).results =
      (constructGrid exGroup exCols).columns.length :=
  c2_decoded_results_cover_columns.1 exGroup exCols (by decide) _ (by decide)


/-! ## C3 -/

/-- C3: with `failuresToOpen = 2` and `passesToClose = 1`, over four
columns, a row decoding (newest first) to `[PASS, FAIL, FAIL, PASS]`
yields no alert, while `[FAIL, FAIL, PASS, PASS]` yields an alert with
`failCount = 2`. -/
theorem c3_two_fail_alert_examples :
    (∀ (cols : List Column) (row : Row), cols.length = 4 →
      decodeResults row.results =
        [RowResult.PASS, RowResult.FAIL, RowResult.FAIL, RowResult.PASS] →
      alertRow cols row 2 1 = none) ∧
    (∀ (cols : List Column) (row : Row), cols.length = 4 →
      decodeResults row.results =
        [RowResult.FAIL, RowResult.FAIL, RowResult.PASS, RowResult.PASS] →
      (alertRow cols row 2 1).map AlertInfo.failCount = some 2) := by
  constructor
  · intro cols row hlen hdec
    rcases cols with _ | ⟨c0, _ | ⟨c1, _ | ⟨c2, _ | ⟨c3, _ | ⟨c4, cols⟩⟩⟩⟩⟩ <;>
      simp only [List.length_nil, List.length_cons] at hlen <;> try omega
    unfold alertRow
    rw [if_neg (by norm_num)]
    dsimp only
    rw [hdec]
    rw [show zipPad [c0, c1, c2, c3] [RowResult.PASS, RowResult.FAIL, RowResult.FAIL, RowResult.PASS] = [(c0, RowResult.PASS), (c1, RowResult.FAIL), (c2, RowResult.FAIL), (c3, RowResult.PASS)] from rfl]
    rw [show alertScan 2 1 [(c0, RowResult.PASS), (c1, RowResult.FAIL), (c2, RowResult.FAIL), (c3, RowResult.PASS)] initAlertState = none from ?_]
    unfold alertScan
    rw [alertStep_PASS]
    rw [if_neg (by norm_num [initAlertState]), if_pos (by norm_num [initAlertState])]
  · intro cols row hlen hdec
    rcases cols with _ | ⟨c0, _ | ⟨c1, _ | ⟨c2, _ | ⟨c3, _ | ⟨c4, cols⟩⟩⟩⟩⟩ <;>
      simp only [List.length_nil, List.length_cons] at hlen <;> try omega
    unfold alertRow
    rw [if_neg (by norm_num)]
    dsimp only
    rw [hdec]
    rw [show zipPad [c0, c1, c2, c3] [RowResult.FAIL, RowResult.FAIL, RowResult.PASS, RowResult.PASS] = [(c0, RowResult.FAIL), (c1, RowResult.FAIL), (c2, RowResult.PASS), (c3, RowResult.PASS)] from rfl]
    have hscan : alertScan 2 1 [(c0, RowResult.FAIL), (c1, RowResult.FAIL), (c2, RowResult.PASS), (c3, RowResult.PASS)] initAlertState = some { failures := 2, totalFailures := 2, passes := 1, compressedIdx := 2, lastFail := some c1, latestPass := some c2, failIdx := 0 } := by
      unfold alertScan
      rw [alertStep_FAIL]
      norm_num [initAlertState]
      unfold alertScan
      rw [alertStep_FAIL]
      norm_num
      unfold alertScan
      rw [alertStep_PASS]
      rw [if_pos (by norm_num)]
      rfl
    rw [hscan]
    norm_num [alertInfo]

/-- Witness column and row fixtures for the alert examples. -/
def wCols4 : List Column :=
  [{ build := "b4", started := 4, extra := [] }, { build := "b3", started := 3, extra := [] },
   { build := "b2", started := 2, extra := [] }, { build := "b1", started := 1, extra := [] }]

/-- A row decoding to `[PASS, FAIL, FAIL, PASS]`, newest first. -/
def wRowPFFP : Row :=
  { name := "t", id := "t", results := [(.PASS, 1), (.FAIL, 2), (.PASS, 1)],
    cellIds := ["a", "b", "c", "d"], messages := ["1", "2", "3", "4"],
    icons := ["", "", "", ""], metric := [], metrics := [], alertInfo := none }

/-- A row decoding to `[FAIL, FAIL, PASS, PASS]`, newest first. -/
def wRowFFPP : Row := { wRowPFFP with results := [(.FAIL, 2), (.PASS, 2)] }

/-- Witness for C3 at concrete columns and rows. -/
theorem c3_two_fail_alert_examples_witness :
    alertRow wCols4 wRowPFFP 2 1 = none ∧
    (alertRow wCols4 wRowFFPP 2 1).map AlertInfo.failCount = some 2 :=
  ⟨c3_two_fail_alert_examples.1 wCols4 wRowPFFP rfl (by decide),
   c3_two_fail_alert_examples.2 wCols4 wRowFFPP rfl (by decide)⟩

/-! ## C4 -/

/-- C4: with `failuresToOpen > 0`, a row whose decoded result stream holds
fewer than `failuresToOpen` `FAIL` entries produces no alert. -/
theorem c4_no_alert_below_threshold :
    ∀ (cols : List Column) (row : Row) (failuresToOpen passesToClose : Int),
      0 < failuresToOpen →
      (countFails (decodeResults row.results) : Int) < failuresToOpen →
      alertRow cols row failuresToOpen passesToClose = none := by
  intro cols row fo pc hfo hcnt
  unfold alertRow
  rw [if_neg (by omega)]
  dsimp only
  cases hscan : alertScan fo pc (zipPad cols (decodeResults row.results)) initAlertState with
  | none => rfl
  | some s' =>
    have hle := countFails_zipPad_le cols (decodeResults row.results)
    have hcond : initAlertState.failures +
        (countFails ((zipPad cols (decodeResults row.results)).map Prod.snd) : Int) < fo := by
      have h0 : initAlertState.failures = 0 := rfl
      rw [h0]
      omega
    have hlt := alertScan_failures_lt fo pc _ initAlertState s' (by norm_num [initAlertState])
      hcond hscan
    show (if s'.failures < fo then none else some (alertInfo s'.totalFailures (row.messages.getD s'.failIdx "") (row.cellIds.getD s'.failIdx "") s'.lastFail s'.latestPass)) = none
    rw [if_pos hlt]

/-- A row with a single failure. -/
def wRowF : Row := { wRowPFFP with results := [(.FAIL, 1)], cellIds := ["a"], messages := ["1"], icons := [""] }

/-- Witness for C4: one failure is below a threshold of two. -/
theorem c4_no_alert_below_threshold_witness :
    alertRow [{ build := "b1", started := 1, extra := [] }] wRowF 2 1 = none :=
  c4_no_alert_below_threshold _ wRowF 2 1 (by norm_num) (by decide)

/-! ## C5 -/

/-- C5: a `RUNNING` result never changes the failure/pass/total counters
and never opens or closes an alert — it only advances `compressedIdx` by
one — while a raw `NO_RESULT` advances nothing; consequently `alertRow`
coincides with the variant whose scan ignores `RUNNING` verdicts outright
(treating them as pure compressed-index slots). -/
theorem c5_running_consumes_slot_only :
    (∀ (fo pc : Int) (s : AlertState) (col : Column),
      alertStep fo pc s col RowResult.RUNNING =
        .cont { s with compressedIdx := s.compressedIdx + 1 }) ∧
    (∀ (fo pc : Int) (s : AlertState) (col : Column),
      alertStep fo pc s col RowResult.NO_RESULT = .cont s) ∧
    (∀ (cols : List Column) (row : Row) (fo pc : Int),
      alertRow cols row fo pc = alertRowIgnoringRunning cols row fo pc) := by
  refine ⟨fun _ _ _ _ => rfl, fun _ _ _ _ => rfl, ?_⟩
  have hstep : ∀ (fo pc : Int) (s : AlertState) (col : Column) (raw : RowResult),
      alertStep fo pc s col raw = alertStepIgnoring fo pc s col raw := by
    intro fo pc s col raw
    cases raw <;> rfl
  have hscan : ∀ (fo pc : Int) (xs : List (Column × RowResult)) (s : AlertState),
      alertScan fo pc xs s = alertScanIgnoring fo pc xs s := by
    intro fo pc xs
    induction xs with
    | nil => intro s; rfl
    | cons p rest ih =>
      intro s
      obtain ⟨col, raw⟩ := p
      unfold alertScan alertScanIgnoring
      rw [← hstep]
      cases alertStep fo pc s col raw <;> simp [ih]
  intro cols row fo pc
  unfold alertRow alertRowIgnoringRunning
  dsimp only
  rw [hscan]


/-! ## C6 -/

/-- C6: `appendMetric` appends a fresh `(idx, 1)` pair exactly when the
index stream is empty or `idx` is not the immediate successor of the last
filled index, increments the final run length otherwise, always appends
the value, and (for the pair-encoded streams the updater builds) preserves
`Σ runLengths = len(values)`. -/
theorem c6_appendMetric_behavior :
    ∀ (metric : Metric) (idx : Int) (value : Rat),
      metric.indices.length % 2 = 0 →
      (appendMetric metric idx value).values = metric.values ++ [value] ∧
      ((metric.indices.length = 0 ∨ metric.indices.getD (metric.indices.length - 2) 0 + metric.indices.getD (metric.indices.length - 1) 0 ≠ idx) → (appendMetric metric idx value).indices = metric.indices ++ [idx, 1]) ∧
      (¬(metric.indices.length = 0 ∨ metric.indices.getD (metric.indices.length - 2) 0 + metric.indices.getD (metric.indices.length - 1) 0 ≠ idx) → (appendMetric metric idx value).indices = metric.indices.set (metric.indices.length - 1) (metric.indices.getD (metric.indices.length - 1) 0 + 1)) ∧
      (sumRunLengths metric.indices = (metric.values.length : Int) → sumRunLengths (appendMetric metric idx value).indices = ((appendMetric metric idx value).values.length : Int)) := by
  intro metric idx value heven
  unfold appendMetric
  dsimp only
  by_cases hcond : metric.indices.length = 0 ∨ metric.indices.getD (metric.indices.length - 2) 0 + metric.indices.getD (metric.indices.length - 1) 0 ≠ idx
  · rw [if_pos hcond]
    refine ⟨rfl, fun _ => rfl, fun h => absurd hcond h, ?_⟩
    intro hinv
    show sumRunLengths (metric.indices ++ [idx, 1]) = ((metric.values ++ [value]).length : Int)
    rw [sumRunLengths_append_pair metric.indices heven idx 1, hinv, List.length_append,
      List.length_singleton]
    push_cast
    omega
  · rw [if_neg hcond]
    refine ⟨rfl, fun h => absurd h hcond, fun _ => rfl, ?_⟩
    intro hinv
    have hne : metric.indices ≠ [] := by
      intro hnil
      exact hcond (Or.inl (by rw [hnil]; rfl))
    show sumRunLengths (metric.indices.set (metric.indices.length - 1) (metric.indices.getD (metric.indices.length - 1) 0 + 1)) = ((metric.values ++ [value]).length : Int)
    rw [sumRunLengths_bump metric.indices heven hne, hinv, List.length_append,
      List.length_singleton]
    push_cast
    omega

/-- A sparse metric with one run `[0, 2]` and two samples. -/
def wMetric : Metric := { name := "m", indices := [0, 2], values := [1, 2] }

/-- Witness for C6: appending at the non-successor index 5 opens a new
run and keeps the run-length/value-count invariant. -/
theorem c6_appendMetric_behavior_witness :
    (appendMetric wMetric 5 3).values = [1, 2, 3] ∧
    (appendMetric wMetric 5 3).indices = [0, 2, 5, 1] ∧
    sumRunLengths (appendMetric wMetric 5 3).indices =
      ((appendMetric wMetric 5 3).values.length : Int) := by
  obtain ⟨h1, h2, _, h4⟩ := c6_appendMetric_behavior wMetric 5 3 (by decide)
  exact ⟨by rw [h1]; rfl, by rw [h2 (by decide)]; rfl, h4 (by decide)⟩

/-! ## C7 -/

theorem sorted_stage (rows0 : List Row)
    (hs : ∀ r ∈ rows0, r.metric = r.metrics.map Metric.name) :
    (((sortSliceStable (fun a b => naturalLess a.name b.name) rows0).map (fun row => { row with metric := sortSliceStable naturalLess row.metric, metrics := sortSliceStable (fun a b => naturalLess a.name b.name) row.metrics })).Pairwise (fun a b => naturalLess b.name a.name = false)) ∧
    ∀ r ∈ ((sortSliceStable (fun a b => naturalLess a.name b.name) rows0).map (fun row => { row with metric := sortSliceStable naturalLess row.metric, metrics := sortSliceStable (fun a b => naturalLess a.name b.name) row.metrics })),
      r.metric.Pairwise (fun a b => naturalLess b a = false) ∧
      r.metrics.Pairwise (fun a b => naturalLess b.name a.name = false) ∧
      r.metric = r.metrics.map Metric.name := by
  constructor
  · have hsorted := sortSliceStable_pairwise (fun a b => naturalLess a.name b.name)
      (fun a b c h1 h2 => by exact naturalLess_trans h1 h2)
      (fun a b h => by exact naturalLess_asymm h) rows0
    exact hsorted.map _ (fun a b h => h)
  · intro r hr
    obtain ⟨r0, hr0, heq⟩ := List.mem_map.mp hr
    have hr0m : r0 ∈ rows0 := sortSliceStable_mem hr0
    have hsync := hs r0 hr0m
    refine ⟨?_, ?_, ?_⟩
    · rw [← heq]
      exact sortSliceStable_pairwise naturalLess
        (fun a b c h1 h2 => by exact naturalLess_trans h1 h2)
        (fun a b h => by exact naturalLess_asymm h) r0.metric
    · rw [← heq]
      exact sortSliceStable_pairwise (fun a b => naturalLess a.name b.name)
        (fun a b c h1 h2 => by exact naturalLess_trans h1 h2)
        (fun a b h => by exact naturalLess_asymm h) r0.metrics
    · rw [← heq]
      show sortSliceStable naturalLess r0.metric = (sortSliceStable (fun a b => naturalLess a.name b.name) r0.metrics).map Metric.name
      rw [hsync, sortSliceStable_map Metric.name naturalLess r0.metrics]

/-- C7: `constructGrid`'s rows are sorted by natural order of name, and in
every row `metric` and `metrics` are sorted by natural order with
`metric[i] = metrics[i].name` at every index (stated as
`metric = metrics.map name`). -/
theorem c7_natural_order_sorting :
    ∀ (group : TestGroup) (cols : List InflatedColumn),
      (constructGrid group cols).rows.Pairwise
        (fun a b => naturalLess b.name a.name = false) ∧
      ∀ r ∈ (constructGrid group cols).rows,
        r.metric.Pairwise (fun a b => naturalLess b a = false) ∧
        r.metrics.Pairwise (fun a b => naturalLess b.name a.name = false) ∧
        r.metric = r.metrics.map Metric.name := by
  intro group cols
  have hsync := constructGrid_fold_sync group.numFailuresToAlert
    (if group.numFailuresToAlert > 0 ∧ group.numPassesToDisableAlert = 0 then 1
      else group.numPassesToDisableAlert) cols { columns := [], rows := [] } (by simp)
  exact sorted_stage _ hsync

/-- Witness for C7 at the concrete example grid. -/
theorem c7_natural_order_sorting_witness :
    (constructGrid exGroup exCols).rows.Pairwise
      (fun a b => naturalLess b.name a.name = false) ∧
    ((constructGrid exGroup exCols).rows.getD 0 (blankRow "")).metric =
      ((constructGrid exGroup exCols).rows.getD 0 (blankRow "")).metrics.map Metric.name :=
  ⟨(c7_natural_order_sorting exGroup exCols).1,
   ((c7_natural_order_sorting exGroup exCols).2 _ (by decide)).2.2⟩

/-! ## C8 -/

/-- C8: `alertRow` with `failuresToOpen = 0` returns `nil` immediately,
and `constructGrid` with alerts enabled and `NumPassesToDisableAlert = 0`
behaves exactly as with `NumPassesToDisableAlert = 1`. -/
theorem c8_alert_config_policy :
    (∀ (cols : List Column) (row : Row) (passesToClose : Int),
      alertRow cols row 0 passesToClose = none) ∧
    (∀ (group : TestGroup) (cols : List InflatedColumn),
      0 < group.numFailuresToAlert → group.numPassesToDisableAlert = 0 →
      constructGrid group cols =
        constructGrid { group with numPassesToDisableAlert := 1 } cols) := by
  constructor
  · intro cols row pc
    unfold alertRow
    rw [if_pos rfl]
  · intro group cols h1 h2
    unfold constructGrid
    dsimp only
    rw [h2]
    rw [if_pos ⟨by omega, rfl⟩, if_neg (by simp)]

/-- Witness for C8 at concrete inputs. -/
theorem c8_alert_config_policy_witness :
    alertRow wCols4 wRowPFFP 0 1 = none ∧
    constructGrid { numFailuresToAlert := 1, numPassesToDisableAlert := 0 } exCols =
      constructGrid { numFailuresToAlert := 1, numPassesToDisableAlert := 1 } exCols :=
  ⟨c8_alert_config_policy.1 wCols4 wRowPFFP 1,
   c8_alert_config_policy.2 { numFailuresToAlert := 1, numPassesToDisableAlert := 0 } exCols
     (by norm_num) rfl⟩

/-! ## C9 -/

/-- C9: `constructGrid`, which re-evaluates every row's alert after each
appended column, produces exactly the same grid as the variant that
appends all columns first and runs `alertRows` once at the end: every
per-column invocation overwrites each row's `AlertInfo`, so only the last
one is observable. -/
theorem c9_alerts_once_at_end_equivalent :
    ∀ (group : TestGroup) (cols : List InflatedColumn),
      constructGrid group cols = constructGridAlertsAtEnd group cols := by
  intro group cols
  unfold constructGrid constructGridAlertsAtEnd
  dsimp only
  cases cols with
  | nil => rfl
  | cons c rest => rw [foldA_eq_alertRows_foldPlain]

/-! ## C10 -/

/-- C10: `alertInfo` records `failBuildId`/`passBuildId` via `buildID` and
`failTime`/`passTime` via `stamp`; `buildID` takes the first extras entry
when the column has extras and the `Build` field otherwise; a nil column
yields the empty string and a nil timestamp. -/
theorem c10_buildID_stamp_selection :
    (∀ (f : Int) (m ci : String) (fail pass : Option Column),
      (alertInfo f m ci fail pass).failBuildId = buildID fail ∧
      (alertInfo f m ci fail pass).passBuildId = buildID pass ∧
      (alertInfo f m ci fail pass).failTime = stamp fail ∧
      (alertInfo f m ci fail pass).passTime = stamp pass) ∧
    (∀ (col : Column) (e : String) (es : List String),
      col.extra = e :: es → buildID (some col) = e) ∧
    (∀ col : Column, col.extra = [] → buildID (some col) = col.build) ∧
    buildID none = "" ∧ stamp none = none := by
  refine ⟨fun _ _ _ _ _ => ⟨rfl, rfl, rfl, rfl⟩, ?_, ?_, rfl, rfl⟩
  · intro col e es he
    show (if 0 < col.extra.length then col.extra.getD 0 "" else col.build) = e
    rw [he]
    simp
  · intro col he
    show (if 0 < col.extra.length then col.extra.getD 0 "" else col.build) = col.build
    rw [he]
    simp

/-- Witness for C10 at concrete columns. -/
theorem c10_buildID_stamp_selection_witness :
    buildID (some { build := "b", started := 0, extra := ["e1", "e2"] }) = "e1" ∧
    buildID (some { build := "b", started := 0, extra := [] }) = "b" ∧
    (alertInfo 2 "m" "c" none none).failBuildId = buildID none :=
  ⟨c10_buildID_stamp_selection.2.1 _ "e1" ["e2"] rfl,
   c10_buildID_stamp_selection.2.2.1 _ rfl,
   (c10_buildID_stamp_selection.1 2 "m" "c" none none).1⟩

end Updater
